import Mathlib

/-!
Verification development for the ccbell notifier: a shallow embedding of the
configuration resolver, quiet-hours evaluator, cooldown gatekeeper, sound
path resolver and entry-point pipeline, together with theorems settling the
specification claims about them.
-/

namespace Ccbell

/-- Splits a character list on a single separator character, mirroring Go
`strings.Split` with a one-character separator. -/
def splitChar (sep : Char) : List Char → List (List Char)
  | [] => [[]]
  | c :: cs =>
    if c = sep then [] :: splitChar sep cs
    else
      match splitChar sep cs with
      | [] => [[c]]
      | h :: t => (c :: h) :: t

/-- Joins character lists with a single separator character, mirroring Go
`strings.Join`. -/
def joinChar (sep : Char) : List (List Char) → List Char
  | [] => []
  | [x] => x
  | x :: y :: xs => x ++ sep :: joinChar sep (y :: xs)

/-- Mirror of Go `strings.HasPrefix` on character lists; the first argument
is the candidate. -/
def hasPreL : List Char → List Char → Bool
  | [], _ => true
  | _ :: _, [] => false
  | p :: ps, c :: cs => p = c && hasPreL ps cs

/-- Mirror of Go `strings.Contains` on character lists; the first argument is
the pattern searched for. -/
def containsL (pat : List Char) : List Char → Bool
  | [] => pat.isEmpty
  | c :: cs => hasPreL pat (c :: cs) || containsL pat cs

/-- Mirror of Go `strings.Split` with a one-character separator. -/
def goSplit (s : String) (sep : Char) : List String :=
  (splitChar sep s.data).map (⟨·⟩)

/-- Mirror of Go `strings.HasPrefix`. -/
def hasPre (s pre : String) : Bool := hasPreL pre.data s.data

/-- Mirror of Go `strings.TrimPrefix`. -/
def trimPre (s pre : String) : String :=
  if hasPre s pre then ⟨s.data.drop pre.data.length⟩ else s

/-- Mirror of Go `strings.Contains`. -/
def containsStr (s sub : String) : Bool := containsL sub.data s.data

/-- Mirror of Go `filepath.IsAbs` on Unix: the path starts with a slash. -/
def isAbs (path : String) : Bool := hasPre path "/"

/-- True when the string, viewed as a slash-separated path, has a `..`
(parent-directory traversal) segment. -/
def hasDotDotSeg (s : String) : Bool :=
  decide (['.', '.'] ∈ splitChar '/' s.data)

/-- Numeric value of a list of ASCII digits. -/
def digitsToNat (l : List Char) : Nat :=
  l.foldl (fun acc c => acc * 10 + (c.toNat - 48)) 0

/-- Mirror of Go `strconv.Atoi`: an optional sign followed by one or more
ASCII digits.  (Go's overflow clamping is irrelevant here because every
caller range-checks the result against small bounds, rejecting the huge
values just as it rejects Go's `ErrRange` failures.) -/
def goAtoi (s : String) : Option Int :=
  let p :=
    if hasPre s "-" then ((-1 : Int), s.data.drop 1)
    else if hasPre s "+" then ((1 : Int), s.data.drop 1)
    else ((1 : Int), s.data)
  if p.2.isEmpty then none
  else if p.2.all (fun c => '0' ≤ c && c ≤ '9') then
    some (p.1 * (digitsToNat p.2 : Int))
  else none

/-! ## Path cleaning, mirroring Go `path/filepath` (Unix rules)

`filepath.Join` concatenates the non-empty elements with slashes and then
applies `filepath.Clean`.  `Clean` is modelled by the standard
segment-stack algorithm it implements: empty and `.` segments are dropped,
a `..` segment pops the previous segment when one is available, is dropped
at the root, and is kept only when it begins a relative path. -/

/-- One step of the `Clean` segment stack (the accumulator holds the
segments processed so far, most recent first). -/
def cleanPush (rooted : Bool) (acc : List (List Char)) (seg : List Char) :
    List (List Char) :=
  if seg = [] ∨ seg = ['.'] then acc
  else if seg = ['.', '.'] then
    match acc with
    | [] => if rooted then [] else [['.', '.']]
    | top :: rest => if top = ['.', '.'] then ['.', '.'] :: top :: rest else rest
  else seg :: acc

/-- The cleaned segment list of a path (in order). -/
def cleanStack (rooted : Bool) (segs : List (List Char)) : List (List Char) :=
  (segs.foldl (cleanPush rooted) []).reverse

/-- Mirror of Go `filepath.Clean` (Unix). -/
def clean (path : String) : String :=
  if path = "" then "."
  else
    let rooted := hasPre path "/"
    let stack := cleanStack rooted (splitChar '/' path.data)
    if stack.isEmpty then (if rooted then "/" else ".")
    else ⟨(if rooted then ['/'] else []) ++ joinChar '/' stack⟩

/-- Mirror of Go `filepath.Join` (Unix): empty elements are ignored, the
rest are joined with slashes and the result is cleaned. -/
def joinPath (parts : List String) : String :=
  let ps := parts.filter (fun s => s ≠ "")
  if ps.isEmpty then "" else clean ⟨joinChar '/' (ps.map String.data)⟩

/-! ## Configuration data model (`internal/config`) -/

/-- Do-not-disturb window, both bounds in "HH:MM" format. -/
structure QuietHours where
  start : String
  «end» : String
deriving DecidableEq, Repr

/-- Per-event configuration; `none` (a nil pointer in the source) means the
field is inherited from the less specific layer, and for `sound` the empty
string plays that role. -/
structure Event where
  enabled : Option Bool := none
  sound : String := ""
  volume : Option Rat := none
  cooldown : Option Int := none
deriving DecidableEq, Repr

/-- A named configuration preset. -/
structure Profile where
  events : List (String × Event) := []
deriving DecidableEq, Repr

/-- The full ccbell configuration.  Go's maps are modelled as association
lists (`List.lookup` finds the entry for a key). -/
structure Config where
  enabled : Bool
  debug : Bool
  activeProfile : String
  quietHours : Option QuietHours := none
  events : List (String × Event) := []
  profiles : List (String × Profile) := []
deriving DecidableEq, Repr

/-- Whitelist of allowed event types (`config.ValidEvents`). -/
def validEvents (s : String) : Bool :=
  s = "stop" || s = "permission_prompt" || s = "idle_prompt" || s = "subagent"

/-- Mirror of the regular expression `^([01][0-9]|2[0-3]):[0-5][0-9]$`
(`config.timeFormatRegex`). -/
def isTimeFormat (s : String) : Bool :=
  match s.data with
  | [h1, h2, c, m1, m2] =>
    (((h1 = '0' || h1 = '1') && ('0' ≤ h2 && h2 ≤ '9')) ||
      (h1 = '2' && ('0' ≤ h2 && h2 ≤ '3'))) &&
    (c = ':') && ('0' ≤ m1 && m1 ≤ '5') && ('0' ≤ m2 && m2 ≤ '9')
  | _ => false

/-- Mirror of the regular expression `^[a-z_]+$` (used both by
`config.eventTypeRegex` and `audio.bundledSoundNameRegex`). -/
def isLowerUnderscoreName (s : String) : Bool :=
  s ≠ "" && s.data.all (fun c => ('a' ≤ c && c ≤ 'z') || c = '_')

/-- The rational value 1/2 in normalized form (`Rat`'s field constructor is
used because `Rat` division does not reduce definitionally). -/
def ratHalf : Rat := ⟨1, 2, by decide, by decide⟩

/-- The rational value 7/10 in normalized form. -/
def ratSevenTenths : Rat := ⟨7, 10, by decide, by decide⟩

/-- One default per-event entry of `config.Default`. -/
def defaultEntry (name : String) (vol : Rat) : String × Event :=
  (name, { enabled := some true, sound := "bundled:" ++ name, volume := some vol, cooldown := some 0 })

/-- Mirror of `config.Default`. -/
def Default : Config :=
  { enabled := true
    debug := false
    activeProfile := "default"
    events :=
      [defaultEntry "stop" ratHalf, defaultEntry "permission_prompt" ratSevenTenths,
       defaultEntry "idle_prompt" ratHalf, defaultEntry "subagent" ratHalf] }

/-- Quiet-hours format portion of `Config.Validate`. -/
def checkQuietHoursFormat (c : Config) : Option String :=
  match c.quietHours with
  | none => none
  | some qh =>
    if qh.start ≠ "" ∧ ¬ isTimeFormat qh.start then
      some ("invalid quietHours.start format: " ++ qh.start)
    else if qh.«end» ≠ "" ∧ ¬ isTimeFormat qh.«end» then
      some ("invalid quietHours.end format: " ++ qh.«end»)
    else none

/-- Active-profile portion of `Config.Validate`. -/
def checkActiveProfile (c : Config) : Option String :=
  if c.activeProfile ≠ "" ∧ c.activeProfile ≠ "default" then
    match c.profiles.lookup c.activeProfile with
    | some _ => none
    | none => some ("activeProfile " ++ c.activeProfile ++ " not found in profiles")
  else none

/-- Per-event checks of `Config.Validate`, over one events map. -/
def checkEventsList : List (String × Event) → Option String
  | [] => none
  | (name, event) :: rest =>
    if ¬ validEvents name then some ("unknown event type: " ++ name)
    else if event.volume.elim false (fun v => decide (v < 0) || decide (v > 1)) then
      some ("event " ++ name ++ ": volume must be 0.0-1.0")
    else if event.cooldown.elim false (fun n => decide (n < 0)) then
      some ("event " ++ name ++ ": cooldown cannot be negative")
    else checkEventsList rest

/-- Profile portion of `Config.Validate`. -/
def checkProfilesList : List (String × Profile) → Option String
  | [] => none
  | (_, profile) :: rest =>
    match checkEventsList profile.events with
    | some e => some e
    | none => checkProfilesList rest

/-- Mirror of `Config.Validate`. -/
def Validate (c : Config) : Option String :=
  match checkQuietHoursFormat c with
  | some e => some e
  | none =>
    match checkActiveProfile c with
    | some e => some e
    | none =>
      match checkEventsList c.events with
      | some e => some e
      | none => checkProfilesList c.profiles

/-- Mirror of `config.mergeEvent`: set values in `src` override `dst`; a nil
pointer (`none`) — or, for `sound`, the empty string — is "not set". -/
def mergeEvent (dst src : Event) : Event :=
  { enabled := match src.enabled with | some b => some b | none => dst.enabled
    sound := if src.sound ≠ "" then src.sound else dst.sound
    volume := match src.volume with | some v => some v | none => dst.volume
    cooldown := match src.cooldown with | some n => some n | none => dst.cooldown }

/-- The built-in default layer that `Config.GetEventConfig` starts from. -/
def defaultEvent (eventType : String) : Event :=
  { enabled := some true
    sound := "bundled:" ++ eventType
    volume := some ratHalf
    cooldown := some 0 }

/-- Mirror of `Config.GetEventConfig`: defaults, overlaid with the base
event entry, overlaid with the active profile's entry. -/
def GetEventConfig (c : Config) (eventType : String) : Event :=
  let result := defaultEvent eventType
  let result :=
    match c.events.lookup eventType with
    | some baseEvent => mergeEvent result baseEvent
    | none => result
  if c.activeProfile ≠ "" ∧ c.activeProfile ≠ "default" then
    match c.profiles.lookup c.activeProfile with
    | some profile =>
      match profile.events.lookup eventType with
      | some profileEvent => mergeEvent result profileEvent
      | none => result
    | none => result
  else result

/-- Mirror of `config.ValidateEventType`. -/
def ValidateEventType (eventType : String) : Option String :=
  if ¬ isLowerUnderscoreName eventType then
    some "invalid event type format: must be lowercase letters and underscores only"
  else if ¬ validEvents eventType then
    some ("unknown event type: " ++ eventType)
  else none

/-! ## Quiet hours (`internal/config`, time helpers) -/

/-- Mirror of `config.parseTimeToMinutes`: converts "HH:MM" to minutes since
midnight, rejecting malformed or out-of-range input. -/
def parseTimeToMinutes (timeStr : String) : Option Nat :=
  match goSplit timeStr ':' with
  | [hs, ms] =>
    match goAtoi hs, goAtoi ms with
    | some hours, some minutes =>
      if hours < 0 ∨ hours > 23 ∨ minutes < 0 ∨ minutes > 59 then none
      else some ((hours * 60 + minutes).toNat)
    | _, _ => none
  | _ => none

/-- Mirror of `Config.IsInQuietHours`; `currentMins` stands for the
`time.Now()` wall clock converted to minutes since midnight. -/
def IsInQuietHours (c : Config) (currentMins : Nat) : Bool :=
  match c.quietHours with
  | none => false
  | some qh =>
    if qh.start = "" ∨ qh.«end» = "" then false
    else
      match parseTimeToMinutes qh.start, parseTimeToMinutes qh.«end» with
      | some startMins, some endMins =>
        if startMins = endMins then false
        else if startMins > endMins then
          decide (currentMins ≥ startMins) || decide (currentMins < endMins)
        else
          decide (currentMins ≥ startMins) && decide (currentMins < endMins)
      | _, _ => false

/-! ## Cooldown state (`internal/state`) -/

/-- Mirror of `state.State`: the persisted map from event name to last-fire
Unix timestamp, as an association list. -/
structure State where
  lastTrigger : List (String × Int)
deriving DecidableEq, Repr

/-- The on-disk condition of the state file: absent, unparseable, or a valid
document.  Atomic replace-on-write means no partially-written state is ever
observable, so these three cases are exhaustive. -/
inductive FileContent where
  | missing
  | corrupt
  | valid (s : State)
deriving DecidableEq, Repr

/-- Mirror of `Manager.load` (missing and corrupted files both yield empty
state; `CheckCooldown` also falls back to empty state on a load error). -/
def loadState : FileContent → State
  | .missing => ⟨[]⟩
  | .corrupt => ⟨[]⟩
  | .valid s => s

/-- Inserts or replaces the entry for a key, preserving entry order
(Go's `state.LastTrigger[eventType] = currentTime`). -/
def upsert {α : Type} : List (String × α) → String → α → List (String × α)
  | [], k, v => [(k, v)]
  | (k', v') :: rest, k, v =>
    if k' = k then (k, v) :: rest else (k', v') :: upsert rest k v

/-- Mirror of `state.NewManager`: the state-file path, empty when the home
directory is unknown. -/
def NewManagerPath (homeDir : String) : String :=
  if homeDir = "" then "" else joinPath [homeDir, ".claude", "ccbell.state"]

/-- Result of one `CheckCooldown` call: the throttling decision, the state
file after the call, and the error returned alongside the decision. -/
structure CooldownResult where
  inCooldown : Bool
  file : FileContent
  err : Option String
deriving DecidableEq, Repr

/-- Mirror of `Manager.CheckCooldown`.  `saveOk` stands for whether the
atomic persist (temp file, chmod, write, rename) succeeds; on failure the
temp file is removed and the original state file is untouched. -/
def CheckCooldown (filePath : String) (file : FileContent) (saveOk : Bool)
    (eventType : String) (cooldownSecs : Int) (now : Int) : CooldownResult :=
  if filePath = "" ∨ cooldownSecs ≤ 0 then ⟨false, file, none⟩
  else
    let st := loadState file
    let lastTrigger := (st.lastTrigger.lookup eventType).getD 0
    let elapsed := now - lastTrigger
    if elapsed < cooldownSecs then ⟨true, file, none⟩
    else
      let st' : State := ⟨upsert st.lastTrigger eventType now⟩
      if saveOk then ⟨false, .valid st', none⟩
      else ⟨false, file, some "failed to save state"⟩

/-! ## Sound resolution (`internal/audio`) -/

/-- Decidable equality for `Except` results. -/
instance {ε α : Type} [DecidableEq ε] [DecidableEq α] : DecidableEq (Except ε α) := fun a b =>
  match a, b with
  | .ok x, .ok y => if h : x = y then .isTrue (by rw [h]) else .isFalse (by simp [h])
  | .error x, .error y => if h : x = y then .isTrue (by rw [h]) else .isFalse (by simp [h])
  | .ok _, .error _ => .isFalse (by simp)
  | .error _, .ok _ => .isFalse (by simp)

/-- Mirror of `strings.SplitN` with limit 2 on character lists: the part
before the first separator and, when a separator occurs, the rest. -/
def splitN2Aux (sep : Char) : List Char → List Char × Option (List Char)
  | [] => ([], none)
  | c :: cs =>
    if c = sep then ([], some cs)
    else
      let r := splitN2Aux sep cs
      (c :: r.1, r.2)

/-- Mirror of `strings.SplitN (s, sep, 2)`. -/
def splitN2 (s : String) (sep : Char) : String × Option String :=
  let r := splitN2Aux sep s.data
  (⟨r.1⟩, r.2.map (⟨·⟩))

/-- The filesystem view used by resolution: whether `os.Stat` succeeds and
whether `os.Lstat` (link-aware, used for bundled sounds) succeeds. -/
structure FS where
  stat : String → Bool
  lstat : String → Bool

/-- Detected operating system (`audio.Platform`). -/
inductive Platform where
  | macos
  | linux
  | unknown
deriving DecidableEq, Repr

/-- Mirror of `audio.Player` (the fields resolution reads). -/
structure Player where
  platform : Platform
  pluginRoot : String
  homeDir : String

/-- Mirror of `Player.resolveCustomSound`: absolute, no `..` substring, and
the target must stat. -/
def Player.resolveCustomSound (_p : Player) (fs : FS) (path : String) :
    Except String String :=
  if ¬ isAbs path then .error ("custom sound must be absolute path: " ++ path)
  else if containsStr path ".." then .error "path traversal not allowed"
  else if ¬ fs.stat path then .error ("custom sound not accessible: " ++ path)
  else .ok path

/-- Mirror of `Player.resolveBundledSound`: the name must match `^[a-z_]+$`
and `<pluginRoot>/sounds/<name>.aiff` must pass the link-aware existence
check. -/
def Player.resolveBundledSound (p : Player) (fs : FS) (name : String) :
    Except String String :=
  if ¬ isLowerUnderscoreName name then
    .error ("invalid bundled sound name: " ++ name)
  else
    let path := joinPath [p.pluginRoot, "sounds", name ++ ".aiff"]
    if ¬ fs.lstat path then .error ("bundled sound not found: " ++ name)
    else .ok path

/-- Mirror of `Player.resolvePackSound`: `pack_id:sound_file` with a
`^[a-z_]+$` pack id, a sound-file name free of `..` and `/`, a known home
directory, and an existing target under the packs directory. -/
def Player.resolvePackSound (p : Player) (fs : FS) (spec : String) :
    Except String String :=
  match splitN2 spec ':' with
  | (_, none) => .error ("invalid pack sound format: " ++ spec)
  | (packID, some soundFile) =>
    if ¬ isLowerUnderscoreName packID then .error ("invalid pack ID: " ++ packID)
    else if containsStr soundFile ".." || containsStr soundFile "/" then
      .error ("invalid sound file name: " ++ soundFile)
    else if p.homeDir = "" then .error "home directory not set for pack sounds"
    else
      let path := joinPath [p.homeDir, ".claude", "ccbell", "packs", packID, soundFile]
      if ¬ fs.stat path then
        .error ("pack sound not found: pack=" ++ packID ++ ", sound=" ++ soundFile)
      else .ok path

/-- Mirror of `Player.ResolveSoundPath`: empty specs default to
`bundled:<eventType>`; `bundled:`, `custom:` and `pack:` specs dispatch to
their resolvers and a bare spec is treated like a custom path. -/
def Player.ResolveSoundPath (p : Player) (fs : FS) (soundSpec eventType : String) :
    Except String String :=
  let spec := if soundSpec = "" then "bundled:" ++ eventType else soundSpec
  if hasPre spec "bundled:" then p.resolveBundledSound fs (trimPre spec "bundled:")
  else if hasPre spec "custom:" then p.resolveCustomSound fs (trimPre spec "custom:")
  else if hasPre spec "pack:" then p.resolvePackSound fs (trimPre spec "pack:")
  else p.resolveCustomSound fs spec

/-- Mirror of `Player.GetFallbackPath`: the event's bundled sound, then the
bundled stop sound, then the empty string. -/
def Player.GetFallbackPath (p : Player) (fs : FS) (eventType : String) : String :=
  let path := joinPath [p.pluginRoot, "sounds", eventType ++ ".aiff"]
  if fs.lstat path then path
  else
    let path2 := joinPath [p.pluginRoot, "sounds", "stop.aiff"]
    if fs.lstat path2 then path2 else ""

/-- External-process environment for playback: the first Linux player found
on PATH, whether a best-effort install succeeds, and whether starting the
child process succeeds. -/
structure PlayerEnv where
  linuxPlayer : Option String
  installSucceeds : Bool
  startOk : Bool

/-- Mirror of `Player.Play`; the second component records whether a child
process was started. -/
def Player.Play (p : Player) (fs : FS) (pe : PlayerEnv) (soundPath : String)
    (_volume : Rat) : Except String Unit × Bool :=
  if soundPath = "" then (.error "no sound path specified", false)
  else if ¬ fs.stat soundPath then
    (.error ("sound file not found: " ++ soundPath), false)
  else
    match p.platform with
    | .macos =>
      if pe.startOk then (.ok (), true) else (.error "start failed", false)
    | .linux =>
      match pe.linuxPlayer with
      | some _ =>
        if pe.startOk then (.ok (), true) else (.error "start failed", false)
      | none =>
        (.error "no audio player found; install pulseaudio, alsa-utils, mpv, or ffmpeg", false)
    | .unknown => (.error "unsupported platform", false)

/-- Mirror of `Player.EnsureAudioPlayer` (Linux): an already available
player is returned without spawning; otherwise installs are attempted via
the system package manager (spawning subprocesses). -/
def EnsureAudioPlayer (pe : PlayerEnv) : Except String String × Bool :=
  match pe.linuxPlayer with
  | some pl => (.ok pl, false)
  | none =>
    if pe.installSucceeds then (.ok "installed", true)
    else (.error "no audio player found; install mpv, ffmpeg, pulseaudio-utils, or alsa-utils", true)

/-! ## JSON document model (for `EnsureConfig` / `Load` round-trips)

The configuration file is modelled at the JSON-value level; the byte-level
encoding and decoding of `encoding/json` is glue outside the claims.
Unmarshalling follows `encoding/json` merge semantics: the document is
decoded *into* an existing configuration, absent fields keep their current
values, maps are merged key by key with fresh element values, and `null`
clears pointers, maps and slices. -/

/-- A JSON value (numbers as exact rationals). -/
inductive Json where
  | null
  | jbool (b : Bool)
  | jnum (q : Rat)
  | jstr (s : String)
  | jarr (elems : List Json)
  | jobj (fields : List (String × Json))

/-- An integer as a rational (structural, so that it reduces). -/
def intToRat (n : Int) : Rat := ⟨n, 1, one_ne_zero, n.natAbs.coprime_one_right⟩

/-- Lexicographic (byte-order) comparison of character lists, matching the
key order Go uses when marshalling maps. -/
def lexLt : List Char → List Char → Bool
  | [], [] => false
  | [], _ :: _ => true
  | _ :: _, [] => false
  | a :: as, b :: bs =>
    if a.toNat < b.toNat then true
    else if b.toNat < a.toNat then false
    else lexLt as bs

/-- Inserts a field into a key-sorted field list (Go marshals maps with
sorted keys). -/
def insertSorted (p : String × Json) : List (String × Json) → List (String × Json)
  | [] => [p]
  | q :: qs => if lexLt p.1.data q.1.data then p :: q :: qs else q :: insertSorted p qs

/-- Sorts a field list by key. -/
def sortByKey (l : List (String × Json)) : List (String × Json) :=
  l.foldr insertSorted []

/-- Marshalling of one `Event` (all fields `omitempty`). -/
def marshalEvent (e : Event) : Json :=
  .jobj
    ((match e.enabled with | some b => [("enabled", Json.jbool b)] | none => []) ++
     (if e.sound ≠ "" then [("sound", Json.jstr e.sound)] else []) ++
     (match e.volume with | some v => [("volume", Json.jnum v)] | none => []) ++
     (match e.cooldown with | some n => [("cooldown", Json.jnum (intToRat n))] | none => []))

/-- Marshalling of a `QuietHours` window. -/
def marshalQuietHours (q : QuietHours) : Json :=
  .jobj [("start", Json.jstr q.start), ("end", Json.jstr q.«end»)]

/-- Marshalling of an events map (keys sorted as Go does). -/
def marshalEventsMap (events : List (String × Event)) : Json :=
  .jobj (sortByKey (events.map (fun p => (p.1, marshalEvent p.2))))

/-- Marshalling of one `Profile` (`events` is `omitempty`). -/
def marshalProfile (pr : Profile) : Json :=
  .jobj (if pr.events.isEmpty then [] else [("events", marshalEventsMap pr.events)])

/-- Marshalling of the full configuration, mirroring the struct tags of
`config.Config` (`quietHours`, `events` and `profiles` are `omitempty`). -/
def marshalConfig (c : Config) : Json :=
  .jobj
    ([("enabled", Json.jbool c.enabled), ("debug", Json.jbool c.debug),
      ("activeProfile", Json.jstr c.activeProfile)] ++
     (match c.quietHours with | some q => [("quietHours", marshalQuietHours q)] | none => []) ++
     (if c.events.isEmpty then [] else [("events", marshalEventsMap c.events)]) ++
     (if c.profiles.isEmpty then [] else
       [("profiles", Json.jobj (sortByKey (c.profiles.map (fun p => (p.1, marshalProfile p.2)))))]))

/-- Decoding of one `Event` from JSON into a fresh zero `Event` (as
`encoding/json` does for map element values). -/
def unmarshalEvent : Json → Option Event
  | .jobj fs => do
    let enabled ←
      match fs.lookup "enabled" with
      | none => some none
      | some .null => some none
      | some (.jbool b) => some (some b)
      | some _ => none
    let sound ←
      match fs.lookup "sound" with
      | none => some ""
      | some .null => some ""
      | some (.jstr s) => some s
      | some _ => none
    let volume ←
      match fs.lookup "volume" with
      | none => some none
      | some .null => some none
      | some (.jnum q) => some (some q)
      | some _ => none
    let cooldown ←
      match fs.lookup "cooldown" with
      | none => some none
      | some .null => some none
      | some (.jnum q) => if q.den = 1 then some (some q.num) else none
      | some _ => none
    pure { enabled := enabled, sound := sound, volume := volume, cooldown := cooldown }
  | .null => some {}
  | _ => none

/-- Decoding of an events map into an existing one: entries are merged key
by key. -/
def unmarshalEventsInto (fields : List (String × Json))
    (m : List (String × Event)) : Option (List (String × Event)) :=
  fields.foldlM (fun acc p => do
    let ev ← unmarshalEvent p.2
    pure (upsert acc p.1 ev)) m

/-- Decoding of one `Profile` (a fresh map element value). -/
def unmarshalProfile : Json → Option Profile
  | .jobj fs =>
    match fs.lookup "events" with
    | none => some ⟨[]⟩
    | some .null => some ⟨[]⟩
    | some (.jobj efs) => (unmarshalEventsInto efs []).map (⟨·⟩)
    | some _ => none
  | .null => some ⟨[]⟩
  | _ => none

/-- Decoding of a profiles map into an existing one. -/
def unmarshalProfilesInto (fields : List (String × Json))
    (m : List (String × Profile)) : Option (List (String × Profile)) :=
  fields.foldlM (fun acc p => do
    let pr ← unmarshalProfile p.2
    pure (upsert acc p.1 pr)) m

/-- Decoding of a `QuietHours` value into a fresh zero value (the Default
configuration carries a nil pointer, so Go allocates a zero struct). -/
def unmarshalQuietHours : Json → Option QuietHours
  | .jobj fs => do
    let start ←
      match fs.lookup "start" with
      | none => some ""
      | some .null => some ""
      | some (.jstr s) => some s
      | some _ => none
    let e ←
      match fs.lookup "end" with
      | none => some ""
      | some .null => some ""
      | some (.jstr s) => some s
      | some _ => none
    pure ⟨start, e⟩
  | _ => none

/-- Decoding of a configuration document into an existing configuration
(`json.Unmarshal(data, cfg)` where `cfg` starts as `Default()`). -/
def unmarshalConfigInto (j : Json) (cfg : Config) : Option Config :=
  match j with
  | .jobj fs => do
    let enabled ←
      match fs.lookup "enabled" with
      | none => some cfg.enabled
      | some (.jbool b) => some b
      | some _ => none
    let debug ←
      match fs.lookup "debug" with
      | none => some cfg.debug
      | some (.jbool b) => some b
      | some _ => none
    let activeProfile ←
      match fs.lookup "activeProfile" with
      | none => some cfg.activeProfile
      | some (.jstr s) => some s
      | some _ => none
    let quietHours ←
      match fs.lookup "quietHours" with
      | none => some cfg.quietHours
      | some .null => some none
      | some j => (unmarshalQuietHours j).map some
    let events ←
      match fs.lookup "events" with
      | none => some cfg.events
      | some .null => some []
      | some (.jobj efs) => unmarshalEventsInto efs cfg.events
      | some _ => none
    let profiles ←
      match fs.lookup "profiles" with
      | none => some cfg.profiles
      | some .null => some []
      | some (.jobj pfs) => unmarshalProfilesInto pfs cfg.profiles
      | some _ => none
    pure { enabled := enabled, debug := debug, activeProfile := activeProfile,
           quietHours := quietHours, events := events, profiles := profiles }
  | _ => none

/-- The document `config.EnsureConfig` writes when no config file exists:
the marshalled default configuration. -/
def ensureConfigContent : Json := marshalConfig Default

/-- Mirror of `config.Load` at the JSON-value level: a missing file keeps
the defaults, a present file is decoded into the defaults, and the result
is validated. -/
def Load (fileContent : Option Json) : Except String Config :=
  let cfg := Default
  match fileContent with
  | none =>
    match Validate cfg with
    | some e => .error ("config validation failed: " ++ e)
    | none => .ok cfg
  | some j =>
    match unmarshalConfigInto j cfg with
    | none => .error "invalid JSON"
    | some cfg' =>
      match Validate cfg' with
      | some e => .error ("config validation failed: " ++ e)
      | none => .ok cfg'

/-- The configuration `run` proceeds with: the loaded one, or the built-in
defaults when loading failed (`run` treats a config error as non-fatal). -/
def loadedConfig (fileContent : Option Json) : Config :=
  match Load fileContent with
  | .ok c => c
  | .error _ => Default

/-! ## Entry point (`run` / `main`) -/

/-- Everything the entry point reads from its surroundings: arguments,
environment variables, the config file, the wall clock, the state file,
persistence and process-spawn outcomes, and the filesystem. -/
structure RunEnv where
  args : List String
  homeDir : String
  pluginRootEnv : String
  foundPluginRoot : String
  configFile : Option Json
  currentMins : Nat
  nowUnix : Int
  saveOk : Bool
  stateFile : FileContent
  fs : FS
  platform : Platform
  playerEnv : PlayerEnv

/-- Outcome of one invocation: the error `run` returns (none = success),
whether sound resolution was reached, and whether any child process was
spawned. -/
structure RunResult where
  err : Option String
  resolvedSound : Bool
  spawned : Bool
deriving DecidableEq, Repr

/-- Mirror of `main`'s exit-code mapping: 0 when `run` returns nil, 1 on
error (2 is reserved for panics, which the model has no source of). -/
def exitCode (r : RunResult) : Nat := if r.err.isSome then 1 else 0

/-- Mirror of `run`: argument handling, validation, config load (falling
back to defaults on error), the global/event/quiet-hours/cooldown
suppression ladder, audio-player provisioning, sound resolution with
fallback, and playback. -/
def runModel (env : RunEnv) : RunResult :=
  let eventType := env.args.head?.getD "stop"
  if eventType = "--version" ∨ eventType = "-v" then ⟨none, false, false⟩
  else if eventType = "--help" ∨ eventType = "-h" then ⟨none, false, false⟩
  else
    match ValidateEventType eventType with
    | some e => ⟨some e, false, false⟩
    | none =>
      let pluginRoot := if env.pluginRootEnv = "" then env.foundPluginRoot else env.pluginRootEnv
      let cfg := loadedConfig env.configFile
      if ¬ cfg.enabled then ⟨none, false, false⟩
      else
        let eventCfg := GetEventConfig cfg eventType
        if ¬ (eventCfg.enabled.getD true) then ⟨none, false, false⟩
        else if IsInQuietHours cfg env.currentMins then ⟨none, false, false⟩
        else
          let cd := CheckCooldown (NewManagerPath env.homeDir) env.stateFile env.saveOk
            eventType (eventCfg.cooldown.getD 0) env.nowUnix
          if cd.err = none ∧ cd.inCooldown then ⟨none, false, false⟩
          else
            let player : Player := ⟨env.platform, pluginRoot, ""⟩
            let ensure : Option String × Bool :=
              if env.platform = Platform.linux then
                match EnsureAudioPlayer env.playerEnv with
                | (.ok _, sp) => (none, sp)
                | (.error e, sp) => (some ("no audio player available: " ++ e), sp)
              else (none, false)
            match ensure with
            | (some e, sp) => ⟨some e, false, sp⟩
            | (none, sp) =>
              let soundPath :=
                match player.ResolveSoundPath env.fs eventCfg.sound eventType with
                | .ok resolved => some resolved
                | .error _ =>
                  let fb := player.GetFallbackPath env.fs eventType
                  if fb = "" then none else some fb
              match soundPath with
              | none => ⟨some "no playable sound found", true, sp⟩
              | some path =>
                match player.Play env.fs env.playerEnv path (eventCfg.volume.getD ratHalf) with
                | (.ok _, sp2) => ⟨none, true, sp || sp2⟩
                | (.error e, sp2) => ⟨some ("sound playback failed: " ++ e), true, sp || sp2⟩

/-- The active profile's override entry for an event, when one applies
(the profile layer consulted by `GetEventConfig`). -/
def profileOverride (c : Config) (eventType : String) : Option Event :=
  if c.activeProfile ≠ "" ∧ c.activeProfile ≠ "default" then
    (c.profiles.lookup c.activeProfile).bind (fun p => p.events.lookup eventType)
  else none

/-- One event entry as constrained by the claimed invariants (from the
spec's words): whitelisted name, volume within [0, 1], cooldown
non-negative. -/
def eventEntryOK (p : String × Event) : Bool :=
  validEvents p.1 &&
  (p.2.volume.elim true (fun v => decide (0 ≤ v) && decide (v ≤ 1))) &&
  (p.2.cooldown.elim true (fun n => decide (0 ≤ n)))

/-- The validation invariants exactly as the claim states them (from the
spec's words): every event entry in the base map and in every profile obeys
`eventEntryOK`, and a non-empty, non-"default" active profile exists in the
profile mapping. -/
def specValidInvariants (c : Config) : Prop :=
  (∀ p ∈ c.events, eventEntryOK p = true) ∧
  (∀ pr ∈ c.profiles, ∀ p ∈ pr.2.events, eventEntryOK p = true) ∧
  (c.activeProfile ≠ "" → c.activeProfile ≠ "default" →
    (c.profiles.lookup c.activeProfile).isSome = true)

/-- The additional invariant `Validate` enforces beyond the claimed ones:
each non-empty quiet-hours bound must be well-formed "HH:MM". -/
def quietHoursFormatOK (c : Config) : Bool :=
  match c.quietHours with
  | none => true
  | some qh =>
    (qh.start = "" || isTimeFormat qh.start) &&
    (qh.«end» = "" || isTimeFormat qh.«end»)

/-- A configuration satisfying every claimed invariant but carrying a
malformed quiet-hours bound. -/
def badQuietConfig : Config :=
  { enabled := true, debug := false, activeProfile := "default",
    quietHours := some ⟨"99:99", "10:00"⟩ }

/-- A filesystem on which every stat succeeds. -/
def fsAll : FS := ⟨fun _ => true, fun _ => true⟩

/-- A filesystem holding exactly one pack sound. -/
def packFS : FS :=
  ⟨fun s => decide (s = "/home/u/.claude/ccbell/packs/alerts/ding.wav"), fun _ => false⟩

/-- The disabled-plugin scenario environment: config `{"enabled": false}`,
event "stop". -/
def envDisabled : RunEnv :=
  { args := ["stop"], homeDir := "/home/u", pluginRootEnv := "/plugin",
    foundPluginRoot := "", configFile := some (.jobj [("enabled", .jbool false)]),
    currentMins := 600, nowUnix := 1000000, saveOk := true, stateFile := .missing,
    fs := fsAll, platform := .macos, playerEnv := ⟨none, false, true⟩ }

/-! ## Helper lemmas -/

theorem mergeEvent_zeroEvent (dst : Event) : mergeEvent dst {} = dst := rfl

theorem parseTimeToMinutes_empty : parseTimeToMinutes "" = none := rfl

theorem splitChar_ne_nil (sep : Char) (l : List Char) : splitChar sep l ≠ [] := by
  induction l with
  | nil => simp [splitChar]
  | cons c cs ih =>
    simp only [splitChar]
    split
    · simp
    · cases h : splitChar sep cs with
      | nil => simp
      | cons hd tl => simp

theorem splitChar_sep_not_mem (sep : Char) (l : List Char) :
    ∀ p ∈ splitChar sep l, sep ∉ p := by
  induction l with
  | nil =>
    intro p hp
    simp [splitChar] at hp
    subst hp; simp
  | cons c cs ih =>
    intro p hp
    simp only [splitChar] at hp
    by_cases hc : c = sep
    · rw [if_pos hc] at hp
      rcases List.mem_cons.mp hp with rfl | hmem
      · simp
      · exact ih p hmem
    · rw [if_neg hc] at hp
      cases hsp : splitChar sep cs with
      | nil => exact absurd hsp (splitChar_ne_nil sep cs)
      | cons hd tl =>
        rw [hsp] at hp
        rcases List.mem_cons.mp hp with rfl | hmem
        · intro hmem2
          rcases List.mem_cons.mp hmem2 with heq | hmem3
          · exact hc heq.symm
          · exact ih hd (by rw [hsp]; exact List.mem_cons_self _ _) hmem3
        · exact ih p (by rw [hsp]; exact List.mem_cons_of_mem _ hmem)

theorem splitChar_no_sep (sep : Char) (l : List Char) (h : sep ∉ l) :
    splitChar sep l = [l] := by
  induction l with
  | nil => rfl
  | cons c cs ih =>
    have hc : ¬ c = sep := fun hcc => h (hcc ▸ List.mem_cons_self _ _)
    have hcs : sep ∉ cs := fun hm => h (List.mem_cons_of_mem _ hm)
    simp only [splitChar]
    rw [if_neg hc, ih hcs]

theorem splitChar_append_sep (sep : Char) (a b : List Char) :
    splitChar sep (a ++ sep :: b) = splitChar sep a ++ splitChar sep b := by
  induction a with
  | nil => simp [splitChar]
  | cons c cs ih =>
    simp only [List.cons_append, List.append_eq, splitChar]
    by_cases hc : c = sep
    · rw [if_pos hc, if_pos hc, ih]
      simp
    · rw [if_neg hc, if_neg hc, ih]
      cases hsp : splitChar sep cs with
      | nil => exact absurd hsp (splitChar_ne_nil sep cs)
      | cons hd tl => simp

theorem splitChar_append_no_sep (sep : Char) (a b : List Char) (h : sep ∉ a) :
    splitChar sep (a ++ b) =
      (a ++ (splitChar sep b).headD []) :: (splitChar sep b).tail := by
  induction a with
  | nil =>
    cases hsp : splitChar sep b with
    | nil => exact absurd hsp (splitChar_ne_nil sep b)
    | cons hd tl => simp [hsp]
  | cons c cs ih =>
    have hc : ¬ c = sep := fun hcc => h (hcc ▸ List.mem_cons_self _ _)
    have hcs : sep ∉ cs := fun hm => h (List.mem_cons_of_mem _ hm)
    simp only [List.cons_append, List.append_eq, splitChar]
    rw [if_neg hc, ih hcs]

theorem hasPreL_self_append (p r : List Char) : hasPreL p (p ++ r) = true := by
  induction p with
  | nil => rfl
  | cons c cs ih => simp [hasPreL, ih]

theorem containsL_of_hasPreL (pat l : List Char) (h : hasPreL pat l = true) :
    containsL pat l = true := by
  cases l with
  | nil =>
    cases pat with
    | nil => rfl
    | cons x xs => simp [hasPreL] at h
  | cons c cs => simp [containsL, h]

theorem containsL_append_right (pat a b : List Char) (h : containsL pat b = true) :
    containsL pat (a ++ b) = true := by
  induction a with
  | nil => simpa
  | cons c cs ih => simp [containsL, ih]

theorem splitChar_head_hasPreL (sep : Char) (l : List Char) :
    hasPreL ((splitChar sep l).headD []) l = true := by
  induction l with
  | nil => rfl
  | cons c cs ih =>
    simp only [splitChar]
    by_cases hc : c = sep
    · rw [if_pos hc]; rfl
    · rw [if_neg hc]
      cases hsp : splitChar sep cs with
      | nil => exact absurd hsp (splitChar_ne_nil sep cs)
      | cons hd tl =>
        rw [hsp] at ih
        simp only [List.headD_cons] at ih ⊢
        simp [hasPreL, ih]

theorem containsL_of_mem_splitChar (sep : Char) (l p : List Char)
    (hp : p ∈ splitChar sep l) : containsL p l = true := by
  induction l with
  | nil =>
    simp [splitChar] at hp
    subst hp; rfl
  | cons c cs ih =>
    simp only [splitChar] at hp
    by_cases hc : c = sep
    · rw [if_pos hc] at hp
      rcases List.mem_cons.mp hp with rfl | hmem
      · rfl
      · simp [containsL, ih hmem]
    · rw [if_neg hc] at hp
      cases hsp : splitChar sep cs with
      | nil => exact absurd hsp (splitChar_ne_nil sep cs)
      | cons hd tl =>
        rw [hsp] at hp
        rcases List.mem_cons.mp hp with rfl | hmem
        · have hh := splitChar_head_hasPreL sep cs
          rw [hsp] at hh
          simp only [List.headD_cons] at hh
          simp [containsL, hasPreL, hh]
        · have hm := ih (by rw [hsp]; exact List.mem_cons_of_mem _ hmem)
          simp [containsL, hm]

theorem hasPreL_drop_eq (p : List Char) :
    ∀ l, hasPreL p l = true → p ++ l.drop p.length = l := by
  induction p with
  | nil => intro l _; simp
  | cons c cs ih =>
    intro l h
    cases l with
    | nil => simp [hasPreL] at h
    | cons d ds =>
      simp only [hasPreL, Bool.and_eq_true, decide_eq_true_eq] at h
      obtain ⟨rfl, h2⟩ := h
      simpa using ih ds h2

theorem hasPre_decompose (s pre : String) (h : hasPre s pre = true) :
    s = pre ++ trimPre s pre := by
  unfold trimPre
  rw [if_pos h]
  unfold hasPre at h
  have h2 := hasPreL_drop_eq pre.data s.data h
  apply String.ext
  rw [String.data_append]
  exact h2.symm

theorem splitChar_joinChar_join (sep : Char) :
    ∀ ps : List (List Char), ps ≠ [] →
      splitChar sep (joinChar sep ps) = (ps.map (splitChar sep)).flatten
  | [], h => absurd rfl h
  | [x], _ => by simp [joinChar]
  | x :: y :: xs, _ => by
    simp only [joinChar]
    rw [splitChar_append_sep, splitChar_joinChar_join sep (y :: xs) (by simp)]
    simp

theorem join_map_splitChar_no_sep (sep : Char) :
    ∀ ps : List (List Char), (∀ p ∈ ps, p ≠ [] ∧ sep ∉ p) →
      (ps.map (splitChar sep)).flatten = ps := by
  intro ps h
  induction ps with
  | nil => rfl
  | cons p rest ih =>
    simp only [List.map_cons, List.flatten_cons]
    rw [splitChar_no_sep sep p (h p (List.mem_cons_self _ _)).2,
      ih (fun q hq => h q (List.mem_cons_of_mem _ hq))]
    simp

theorem splitChar_joinChar_eq_self (sep : Char) (ps : List (List Char))
    (hne : ps ≠ []) (h : ∀ p ∈ ps, p ≠ [] ∧ sep ∉ p) :
    splitChar sep (joinChar sep ps) = ps := by
  rw [splitChar_joinChar_join sep ps hne, join_map_splitChar_no_sep sep ps h]

theorem foldl_cleanPush_no_dotdot (rooted : Bool) :
    ∀ segs : List (List Char), (∀ s ∈ segs, s ≠ ['.', '.']) →
      ∀ acc, (∀ p ∈ acc, p ≠ ['.', '.']) →
        ∀ p ∈ segs.foldl (cleanPush rooted) acc, p ≠ ['.', '.'] := by
  intro segs
  induction segs with
  | nil => intro _ acc hacc p hp; exact hacc p hp
  | cons s rest ih =>
    intro hsegs acc hacc p hp
    rw [List.foldl_cons] at hp
    refine ih (fun t ht => hsegs t (List.mem_cons_of_mem _ ht)) _ ?_ p hp
    intro q hq
    have hs := hsegs s (List.mem_cons_self _ _)
    by_cases h1 : s = [] ∨ s = ['.']
    · simp only [cleanPush] at hq
      rw [if_pos h1] at hq
      exact hacc q hq
    · simp only [cleanPush] at hq
      rw [if_neg h1, if_neg hs] at hq
      rcases List.mem_cons.mp hq with rfl | hmem
      · exact hs
      · exact hacc q hmem

theorem foldl_cleanPush_wf (rooted : Bool) :
    ∀ segs : List (List Char), (∀ s ∈ segs, '/' ∉ s) →
      ∀ acc, (∀ p ∈ acc, p ≠ [] ∧ '/' ∉ p) →
        ∀ p ∈ segs.foldl (cleanPush rooted) acc, p ≠ [] ∧ '/' ∉ p := by
  intro segs
  induction segs with
  | nil => intro _ acc hacc p hp; exact hacc p hp
  | cons s rest ih =>
    intro hsegs acc hacc p hp
    rw [List.foldl_cons] at hp
    refine ih (fun t ht => hsegs t (List.mem_cons_of_mem _ ht)) _ ?_ p hp
    intro q hq
    have hs : '/' ∉ s := hsegs s (List.mem_cons_self _ _)
    by_cases h1 : s = [] ∨ s = ['.']
    · simp only [cleanPush] at hq
      rw [if_pos h1] at hq
      exact hacc q hq
    · simp only [cleanPush] at hq
      rw [if_neg h1] at hq
      by_cases h2 : s = ['.', '.']
      · rw [if_pos h2] at hq
        cases acc with
        | nil =>
          have hq2 : q ∈ (if rooted = true then [] else [['.', '.']]) := hq
          cases rooted with
          | false =>
            rw [if_neg (by simp)] at hq2
            rw [List.mem_singleton] at hq2
            subst hq2
            exact ⟨by simp, by simp⟩
          | true =>
            rw [if_pos rfl] at hq2
            simp at hq2
        | cons top restAcc =>
          have hq2 : q ∈
              (if top = ['.', '.'] then ['.', '.'] :: top :: restAcc else restAcc) := hq
          by_cases h3 : top = ['.', '.']
          · rw [if_pos h3] at hq2
            rcases List.mem_cons.mp hq2 with rfl | hmem
            · exact ⟨by simp, by simp⟩
            · exact hacc q hmem
          · rw [if_neg h3] at hq2
            exact hacc q (List.mem_cons_of_mem _ hq2)
      · rw [if_neg h2] at hq
        rcases List.mem_cons.mp hq with rfl | hmem
        · refine ⟨?_, hs⟩
          intro hqe
          exact h1 (Or.inl hqe)
        · exact hacc q hmem

theorem hasDotDotSeg_false_iff (s : String) :
    hasDotDotSeg s = false ↔ ∀ p ∈ splitChar '/' s.data, p ≠ ['.', '.'] := by
  unfold hasDotDotSeg
  rw [decide_eq_false_iff_not]
  constructor
  · intro h p hp heq
    exact h (heq ▸ hp)
  · intro h hmem
    exact h _ hmem rfl

theorem clean_no_dotdot (path : String)
    (h : ∀ p ∈ splitChar '/' path.data, p ≠ ['.', '.']) :
    hasDotDotSeg (clean path) = false := by
  by_cases hpe : path = ""
  · subst hpe; decide
  · simp only [clean, if_neg hpe]
    have hstack_nd : ∀ p ∈ cleanStack (hasPre path "/") (splitChar '/' path.data),
        p ≠ ['.', '.'] := by
      intro p hp
      unfold cleanStack at hp
      rw [List.mem_reverse] at hp
      exact foldl_cleanPush_no_dotdot _ _ h [] (by simp) p hp
    have hstack_wf : ∀ p ∈ cleanStack (hasPre path "/") (splitChar '/' path.data),
        p ≠ [] ∧ '/' ∉ p := by
      intro p hp
      unfold cleanStack at hp
      rw [List.mem_reverse] at hp
      exact foldl_cleanPush_wf _ _ (splitChar_sep_not_mem '/' path.data) [] (by simp) p hp
    by_cases hemp : (cleanStack (hasPre path "/") (splitChar '/' path.data)).isEmpty
    · rw [if_pos hemp]
      by_cases hro : hasPre path "/" = true
      · rw [if_pos hro]; decide
      · rw [if_neg hro]; decide
    · rw [if_neg hemp]
      rw [hasDotDotSeg_false_iff]
      intro p hp
      have hnn : cleanStack (hasPre path "/") (splitChar '/' path.data) ≠ [] := by
        simpa [List.isEmpty_iff] using hemp
      by_cases hro : hasPre path "/" = true
      · rw [if_pos hro] at hp
        have hp2 : p ∈ splitChar '/' ('/' :: joinChar '/'
            (cleanStack (hasPre path "/") (splitChar '/' path.data))) := hp
        have hsplit : splitChar '/' ('/' :: joinChar '/'
            (cleanStack (hasPre path "/") (splitChar '/' path.data))) =
            [] :: splitChar '/' (joinChar '/'
              (cleanStack (hasPre path "/") (splitChar '/' path.data))) := by
          simp [splitChar]
        rw [hsplit, splitChar_joinChar_eq_self '/' _ hnn hstack_wf] at hp2
        rcases List.mem_cons.mp hp2 with rfl | hmem
        · simp
        · exact hstack_nd p hmem
      · rw [if_neg hro] at hp
        have hp2 : p ∈ splitChar '/' (joinChar '/'
            (cleanStack (hasPre path "/") (splitChar '/' path.data))) := hp
        rw [splitChar_joinChar_eq_self '/' _ hnn hstack_wf] at hp2
        exact hstack_nd p hp2

theorem joinPath_no_dotdot (parts : List String)
    (h : ∀ s ∈ parts, hasDotDotSeg s = false) :
    hasDotDotSeg (joinPath parts) = false := by
  unfold joinPath
  by_cases hps : (parts.filter (fun s => s ≠ "")).isEmpty
  · rw [if_pos hps]; decide
  · rw [if_neg hps]
    apply clean_no_dotdot
    intro p hp
    have hne : (parts.filter (fun s => s ≠ "")).map String.data ≠ [] := by
      intro hcon
      rw [List.map_eq_nil_iff] at hcon
      rw [hcon] at hps
      exact hps rfl
    have hdata : ((⟨joinChar '/' ((parts.filter (fun s => s ≠ "")).map String.data)⟩ :
        String)).data = joinChar '/' ((parts.filter (fun s => s ≠ "")).map String.data) := rfl
    rw [hdata, splitChar_joinChar_join '/' _ hne, List.mem_flatten] at hp
    obtain ⟨l, hl, hpl⟩ := hp
    rw [List.mem_map] at hl
    obtain ⟨d, hd, rfl⟩ := hl
    rw [List.mem_map] at hd
    obtain ⟨s, hs, rfl⟩ := hd
    exact (hasDotDotSeg_false_iff s).mp (h s (List.mem_of_mem_filter hs)) p hpl

theorem not_mem_of_containsL_single (c : Char) (l : List Char)
    (h : containsL [c] l = false) : c ∉ l := by
  induction l with
  | nil => simp
  | cons a as ih =>
    have h2 : hasPreL [c] (a :: as) = false ∧ containsL [c] as = false := by
      simpa [containsL] using h
    intro hmem
    rcases List.mem_cons.mp hmem with rfl | hmem2
    · simp [hasPreL] at h2
    · exact ih h2.2 hmem2

theorem hasDotDotSeg_no_slash (s : String) (h : '/' ∉ s.data)
    (h2 : s.data ≠ ['.', '.']) : hasDotDotSeg s = false := by
  rw [hasDotDotSeg_false_iff, splitChar_no_sep '/' s.data h]
  intro p hp
  rw [List.mem_singleton] at hp
  subst hp
  exact h2

theorem isLowerUnderscoreName_chars (s : String) (h : isLowerUnderscoreName s = true) :
    s.data ≠ [] ∧ ∀ ch ∈ s.data, (('a' ≤ ch ∧ ch ≤ 'z') ∨ ch = '_') := by
  unfold isLowerUnderscoreName at h
  rw [Bool.and_eq_true] at h
  obtain ⟨h1, h2⟩ := h
  rw [decide_eq_true_eq] at h1
  constructor
  · intro hd
    exact h1 (String.ext (hd.trans rfl))
  · intro ch hch
    have := List.all_eq_true.mp h2 ch hch
    simpa using this

theorem isLowerUnderscoreName_not_mem (s : String) (h : isLowerUnderscoreName s = true)
    (c : Char) (hc : ¬ (('a' ≤ c ∧ c ≤ 'z') ∨ c = '_')) : c ∉ s.data := by
  intro hmem
  exact hc ((isLowerUnderscoreName_chars s h).2 c hmem)

theorem splitN2Aux_eq_some (sep : Char) :
    ∀ (l a b : List Char), splitN2Aux sep l = (a, some b) →
      l = a ++ sep :: b ∧ sep ∉ a := by
  intro l
  induction l with
  | nil => intro a b h; simp [splitN2Aux] at h
  | cons c cs ih =>
    intro a b h
    simp only [splitN2Aux] at h
    by_cases hc : c = sep
    · rw [if_pos hc] at h
      injection h with h1 h2
      injection h2 with h2
      subst h1; subst h2
      exact ⟨by simp [hc], by simp⟩
    · rw [if_neg hc] at h
      injection h with h1 h2
      subst h1
      have hr : splitN2Aux sep cs = ((splitN2Aux sep cs).1, some b) := by
        rw [← h2]
      obtain ⟨hl, hsep⟩ := ih (splitN2Aux sep cs).1 b hr
      constructor
      · rw [List.cons_append, ← hl]
      · intro hm
        rcases List.mem_cons.mp hm with heq | hm2
        · exact hc heq.symm
        · exact hsep hm2

theorem splitN2Aux_append (sep : Char) (a b : List Char) (h : sep ∉ a) :
    splitN2Aux sep (a ++ sep :: b) = (a, some b) := by
  induction a with
  | nil => simp [splitN2Aux]
  | cons c cs ih =>
    have hc : ¬ c = sep := fun hcc => h (hcc ▸ List.mem_cons_self _ _)
    have hcs : sep ∉ cs := fun hm => h (List.mem_cons_of_mem _ hm)
    simp only [List.cons_append, List.append_eq, splitN2Aux]
    rw [if_neg hc, ih hcs]

theorem splitN2_construct (a b : String) (h : ':' ∉ a.data) :
    splitN2 (a ++ ":" ++ b) ':' = (a, some b) := by
  unfold splitN2
  have hdata : (a ++ ":" ++ b).data = a.data ++ ':' :: b.data := by
    rw [String.data_append, String.data_append]
    have hcolon : (":" : String).data = [':'] := rfl
    rw [hcolon]
    simp
  rw [hdata, splitN2Aux_append ':' a.data b.data h]
  rfl

theorem splitN2_eq_some (s a b : String) (h : splitN2 s ':' = (a, some b)) :
    s.data = a.data ++ ':' :: b.data ∧ ':' ∉ a.data := by
  unfold splitN2 at h
  injection h with h1 h2
  cases hr : (splitN2Aux ':' s.data).2 with
  | none =>
    rw [hr] at h2
    have h3 : (none : Option String) = some b := h2
    exact Option.noConfusion h3
  | some bb =>
    rw [hr] at h2
    have h3 : some (⟨bb⟩ : String) = some b := h2
    injection h3 with h2
    have haux : splitN2Aux ':' s.data = ((splitN2Aux ':' s.data).1, some bb) := by
      rw [← hr]
    obtain ⟨hl, hsep⟩ := splitN2Aux_eq_some ':' s.data _ bb haux
    have ha : a.data = (splitN2Aux ':' s.data).1 := by rw [← h1]
    have hb : b.data = bb := by rw [← h2]
    rw [ha, hb]
    exact ⟨hl, hsep⟩

theorem resolveCustomSound_ok (p : Player) (fs : FS) (path out : String)
    (h : p.resolveCustomSound fs path = .ok out) :
    out = path ∧ isAbs path = true ∧ containsStr path ".." = false := by
  simp only [Player.resolveCustomSound] at h
  by_cases h1 : ¬ isAbs path
  · rw [if_pos h1] at h; exact Except.noConfusion h
  · rw [if_neg h1] at h
    by_cases h2 : containsStr path ".." = true
    · rw [if_pos h2] at h; exact Except.noConfusion h
    · rw [if_neg h2] at h
      by_cases h3 : ¬ fs.stat path
      · rw [if_pos h3] at h; exact Except.noConfusion h
      · rw [if_neg h3] at h
        injection h with h4
        exact ⟨h4.symm, by simpa using h1, by simpa using h2⟩

theorem resolveBundledSound_ok (p : Player) (fs : FS) (name out : String)
    (h : p.resolveBundledSound fs name = .ok out) :
    isLowerUnderscoreName name = true ∧
    out = joinPath [p.pluginRoot, "sounds", name ++ ".aiff"] := by
  simp only [Player.resolveBundledSound] at h
  by_cases h1 : ¬ isLowerUnderscoreName name
  · rw [if_pos h1] at h; exact Except.noConfusion h
  · rw [if_neg h1] at h
    by_cases h2 : ¬ fs.lstat (joinPath [p.pluginRoot, "sounds", name ++ ".aiff"])
    · rw [if_pos h2] at h; exact Except.noConfusion h
    · rw [if_neg h2] at h
      injection h with h3
      exact ⟨by simpa using h1, h3.symm⟩

theorem resolvePackSound_ok (p : Player) (fs : FS) (spec out : String)
    (h : p.resolvePackSound fs spec = .ok out) :
    ∃ packID soundFile,
      splitN2 spec ':' = (packID, some soundFile) ∧
      isLowerUnderscoreName packID = true ∧
      containsStr soundFile ".." = false ∧ containsStr soundFile "/" = false ∧
      p.homeDir ≠ "" ∧
      out = joinPath [p.homeDir, ".claude", "ccbell", "packs", packID, soundFile] := by
  rcases hsp : splitN2 spec ':' with ⟨packID, _ | soundFile⟩
  · simp only [Player.resolvePackSound, hsp] at h
    exact Except.noConfusion h
  · simp only [Player.resolvePackSound, hsp] at h
    by_cases h1 : ¬ isLowerUnderscoreName packID
    · rw [if_pos h1] at h; exact Except.noConfusion h
    · rw [if_neg h1] at h
      by_cases h2 : (containsStr soundFile ".." || containsStr soundFile "/") = true
      · rw [if_pos h2] at h; exact Except.noConfusion h
      · rw [if_neg h2] at h
        by_cases h3 : p.homeDir = ""
        · rw [if_pos h3] at h; exact Except.noConfusion h
        · rw [if_neg h3] at h
          by_cases h4 : ¬ fs.stat (joinPath [p.homeDir, ".claude", "ccbell", "packs", packID, soundFile])
          · rw [if_pos h4] at h; exact Except.noConfusion h
          · rw [if_neg h4] at h
            injection h with h5
            rw [Bool.or_eq_true] at h2
            push_neg at h2
            exact ⟨packID, soundFile, rfl, by simpa using h1,
              by simpa using h2.1, by simpa using h2.2, h3, h5.symm⟩

theorem resolvePackSound_success (p : Player) (fs : FS) (packID soundFile : String)
    (hpid : isLowerUnderscoreName packID = true)
    (hdd : containsStr soundFile ".." = false) (hsl : containsStr soundFile "/" = false)
    (hhome : p.homeDir ≠ "")
    (hstat : fs.stat (joinPath [p.homeDir, ".claude", "ccbell", "packs", packID, soundFile]) = true) :
    p.resolvePackSound fs (packID ++ ":" ++ soundFile) =
      .ok (joinPath [p.homeDir, ".claude", "ccbell", "packs", packID, soundFile]) := by
  have hnc : ':' ∉ packID.data := isLowerUnderscoreName_not_mem packID hpid ':' (by decide)
  simp only [Player.resolvePackSound, splitN2_construct packID soundFile hnc]
  rw [if_neg (by simp [hpid]), if_neg (by simp [hdd, hsl]), if_neg hhome,
    if_neg (by simp [hstat])]

theorem hasDotDotSeg_of_not_contains (s : String)
    (h : containsL ['.', '.'] s.data = false) : hasDotDotSeg s = false := by
  rw [hasDotDotSeg_false_iff]
  intro q hq heq
  subst heq
  have h2 := containsL_of_mem_splitChar '/' s.data _ hq
  rw [h] at h2
  exact Bool.noConfusion h2

theorem hasDotDotSeg_of_lowerUnderscore (s : String)
    (h : isLowerUnderscoreName s = true) : hasDotDotSeg s = false := by
  apply hasDotDotSeg_no_slash
  · exact isLowerUnderscoreName_not_mem s h '/' (by decide)
  · intro heq
    have hdot : '.' ∈ s.data := by rw [heq]; simp
    exact isLowerUnderscoreName_not_mem s h '.' (by decide) hdot

theorem hasDotDotSeg_name_aiff (name : String) (h : isLowerUnderscoreName name = true) :
    hasDotDotSeg (name ++ ".aiff") = false := by
  apply hasDotDotSeg_no_slash
  · rw [String.data_append]
    intro hm
    rcases List.mem_append.mp hm with hm | hm
    · exact isLowerUnderscoreName_not_mem name h '/' (by decide) hm
    · revert hm; decide
  · rw [String.data_append]
    intro heq
    have hlen := congrArg List.length heq
    rw [List.length_append] at hlen
    have h5 : ((".aiff" : String).data).length = 5 := rfl
    rw [h5, show (['.', '.'] : List Char).length = 2 from rfl] at hlen
    omega

theorem spec_no_dotdot_of_bundled (spec : String) (hb : hasPre spec "bundled:" = true)
    (hname : isLowerUnderscoreName (trimPre spec "bundled:") = true) :
    hasDotDotSeg spec = false := by
  rw [hasPre_decompose spec "bundled:" hb]
  apply hasDotDotSeg_no_slash
  · rw [String.data_append]
    intro hmem
    rcases List.mem_append.mp hmem with hm | hm
    · revert hm; decide
    · exact isLowerUnderscoreName_not_mem _ hname '/' (by decide) hm
  · rw [String.data_append]
    intro heq
    have hlen := congrArg List.length heq
    rw [List.length_append] at hlen
    have h8 : (("bundled:" : String).data).length = 8 := rfl
    rw [h8, show (['.', '.'] : List Char).length = 2 from rfl] at hlen
    omega

theorem hasDotDotSeg_append_false (pre path : String)
    (hsl : '/' ∉ pre.data) (hh : pre.data.head? ≠ some '.')
    (hc : containsL ['.', '.'] path.data = false) :
    hasDotDotSeg (pre ++ path) = false := by
  rw [hasDotDotSeg_false_iff]
  intro p hp
  have hp2 : p ∈ splitChar '/' (pre.data ++ path.data) := by
    rw [← String.data_append]; exact hp
  rw [splitChar_append_no_sep '/' pre.data path.data hsl] at hp2
  rcases List.mem_cons.mp hp2 with rfl | hmem
  · intro heq
    cases hpd : pre.data with
    | nil =>
      rw [hpd, List.nil_append] at heq
      have hpfx := splitChar_head_hasPreL '/' path.data
      rw [heq] at hpfx
      have h2 := containsL_of_hasPreL _ _ hpfx
      rw [hc] at h2
      exact Bool.noConfusion h2
    | cons c rest =>
      rw [hpd, List.cons_append] at heq
      injection heq with hc1 _
      rw [hpd] at hh
      simp [hc1] at hh
  · intro heq
    subst heq
    have hmem2 : (['.', '.'] : List Char) ∈ splitChar '/' path.data :=
      List.mem_of_mem_tail hmem
    have h2 := containsL_of_mem_splitChar '/' path.data _ hmem2
    rw [hc] at h2
    exact Bool.noConfusion h2

theorem eventEntryOK_iff (name : String) (ev : Event) :
    eventEntryOK (name, ev) = true ↔
      (validEvents name = true ∧
       ev.volume.elim false (fun v => decide (v < 0) || decide (v > 1)) = false ∧
       ev.cooldown.elim false (fun n => decide (n < 0)) = false) := by
  cases hv : ev.volume <;> cases hc : ev.cooldown <;>
    simp [eventEntryOK, hv, hc, not_lt, and_assoc]

theorem checkEventsList_none_iff (l : List (String × Event)) :
    checkEventsList l = none ↔ ∀ p ∈ l, eventEntryOK p = true := by
  induction l with
  | nil => simp [checkEventsList]
  | cons hd tl ih =>
    obtain ⟨name, ev⟩ := hd
    constructor
    · intro h
      simp only [checkEventsList] at h
      split_ifs at h with h1 h2 h3
      intro p hp
      rcases List.mem_cons.mp hp with rfl | hmem
      · rw [eventEntryOK_iff]
        refine ⟨by simpa using h1, by simpa using h2, by simpa using h3⟩
      · exact (ih.mp h) p hmem
    · intro hall
      have hhd := hall (name, ev) (List.mem_cons_self _ _)
      rw [eventEntryOK_iff] at hhd
      simp only [checkEventsList]
      rw [if_neg (by simpa using hhd.1), if_neg (by simp [hhd.2.1]),
        if_neg (by simp [hhd.2.2])]
      exact ih.mpr (fun p hp => hall p (List.mem_cons_of_mem _ hp))

theorem checkProfilesList_none_iff (l : List (String × Profile)) :
    checkProfilesList l = none ↔ ∀ pr ∈ l, ∀ p ∈ pr.2.events, eventEntryOK p = true := by
  induction l with
  | nil => simp [checkProfilesList]
  | cons hd tl ih =>
    obtain ⟨name, pr⟩ := hd
    simp only [checkProfilesList]
    cases he : checkEventsList pr.events with
    | some e =>
      constructor
      · intro h; exact Option.noConfusion h
      · intro hall
        exfalso
        have h2 := (checkEventsList_none_iff pr.events).mpr
          (hall (name, pr) (List.mem_cons_self _ _))
        rw [he] at h2; exact Option.noConfusion h2
    | none =>
      constructor
      · intro h p hp
        rcases List.mem_cons.mp hp with rfl | hmem
        · exact fun q hq => (checkEventsList_none_iff pr.events).mp he q hq
        · exact (ih.mp h) p hmem
      · intro hall
        exact ih.mpr (fun p hp => hall p (List.mem_cons_of_mem _ hp))

theorem checkActiveProfile_none_iff (c : Config) :
    checkActiveProfile c = none ↔
      (c.activeProfile ≠ "" → c.activeProfile ≠ "default" →
        (c.profiles.lookup c.activeProfile).isSome = true) := by
  unfold checkActiveProfile
  by_cases hap : c.activeProfile ≠ "" ∧ c.activeProfile ≠ "default"
  · rw [if_pos hap]
    cases hl : c.profiles.lookup c.activeProfile <;> simp [hl, hap.1, hap.2]
  · rw [if_neg hap]
    constructor
    · intro _ h1 h2
      rcases not_and_or.mp hap with h | h
      · exact absurd (not_not.mp h) h1
      · exact absurd (not_not.mp h) h2
    · intro _; rfl

theorem checkQuietHoursFormat_none_iff (c : Config) :
    checkQuietHoursFormat c = none ↔ quietHoursFormatOK c = true := by
  cases hq : c.quietHours with
  | none => simp [checkQuietHoursFormat, quietHoursFormatOK, hq]
  | some qh =>
    simp only [checkQuietHoursFormat, quietHoursFormatOK, hq]
    by_cases h1 : qh.start ≠ "" ∧ ¬ isTimeFormat qh.start
    · rw [if_pos h1]
      obtain ⟨hne, hnf⟩ := h1
      simp [hne, hnf]
    · rw [if_neg h1]
      by_cases h2 : qh.«end» ≠ "" ∧ ¬ isTimeFormat qh.«end»
      · rw [if_pos h2]
        obtain ⟨hne, hnf⟩ := h2
        simp [hne, hnf]
      · rw [if_neg h2]
        push_neg at h1 h2
        have hh1 : (decide (qh.start = "") || isTimeFormat qh.start) = true := by
          by_cases hs : qh.start = ""
          · simp [hs]
          · simp [h1 hs]
        have hh2 : (decide (qh.«end» = "") || isTimeFormat qh.«end») = true := by
          by_cases hs : qh.«end» = ""
          · simp [hs]
          · simp [h2 hs]
        simp [hh1, hh2]

theorem Validate_none_iff (c : Config) :
    Validate c = none ↔ (quietHoursFormatOK c = true ∧ specValidInvariants c) := by
  unfold Validate specValidInvariants
  rw [← checkQuietHoursFormat_none_iff, ← checkActiveProfile_none_iff,
    ← checkEventsList_none_iff, ← checkProfilesList_none_iff]
  cases hq : checkQuietHoursFormat c <;> cases ha : checkActiveProfile c <;>
    cases he : checkEventsList c.events <;> cases hp : checkProfilesList c.profiles <;>
    simp [hq, ha, he, hp]

/-! ## Claim theorems -/

/-- C1: `IsInQuietHours` is false when the window is absent, when either
bound is empty, and when either bound fails to parse; when both bounds
parse to minute values `sm` and `em`, it is constantly false for `sm = em`,
equals `sm ≤ now < em` for `sm < em`, and equals `now ≥ sm ∨ now < em` for
`sm > em`. -/
theorem C1_quiet_hours_window :
    (∀ c now, c.quietHours = none → IsInQuietHours c now = false) ∧
    (∀ c qh now, c.quietHours = some qh → (qh.start = "" ∨ qh.«end» = "") →
      IsInQuietHours c now = false) ∧
    (∀ c qh now, c.quietHours = some qh →
      (parseTimeToMinutes qh.start = none ∨ parseTimeToMinutes qh.«end» = none) →
      IsInQuietHours c now = false) ∧
    (∀ c qh now sm em, c.quietHours = some qh →
      parseTimeToMinutes qh.start = some sm →
      parseTimeToMinutes qh.«end» = some em →
      (sm = em → IsInQuietHours c now = false) ∧
      (sm < em → IsInQuietHours c now = (decide (sm ≤ now) && decide (now < em))) ∧
      (em < sm → IsInQuietHours c now = (decide (now ≥ sm) || decide (now < em)))) := by
  refine ⟨?_, ?_, ?_, ?_⟩
  · intro c now h
    simp only [IsInQuietHours, h]
  · intro c qh now h hse
    simp only [IsInQuietHours, h]
    rw [if_pos hse]
  · intro c qh now h hpf
    simp only [IsInQuietHours, h]
    by_cases hse : qh.start = "" ∨ qh.«end» = ""
    · rw [if_pos hse]
    · rw [if_neg hse]
      rcases hpf with hp | hp <;> rw [hp] <;>
        cases parseTimeToMinutes qh.start <;> cases parseTimeToMinutes qh.«end» <;> rfl
  · intro c qh now sm em h hps hpe
    have hs : qh.start ≠ "" := by
      intro he; rw [he, parseTimeToMinutes_empty] at hps; exact Option.noConfusion hps
    have he : qh.«end» ≠ "" := by
      intro he; rw [he, parseTimeToMinutes_empty] at hpe; exact Option.noConfusion hpe
    have hform : IsInQuietHours c now =
        (if sm = em then false
         else if sm > em then (decide (now ≥ sm) || decide (now < em))
         else (decide (now ≥ sm) && decide (now < em))) := by
      simp only [IsInQuietHours, h]
      rw [if_neg (by simp [hs, he]), hps, hpe]
    refine ⟨?_, ?_, ?_⟩
    · intro hEq
      rw [hform, if_pos hEq]
    · intro hlt
      rw [hform, if_neg (Nat.ne_of_lt hlt), if_neg (by omega)]
    · intro hlt
      rw [hform, if_neg (Nat.ne_of_lt' hlt), if_pos (by omega)]

/-- C1 witness: a concrete midnight-spanning window, with the hypotheses of
`C1_quiet_hours_window` discharged at 22:00–07:00 and now = 22:30. -/
theorem C1_quiet_hours_window_witness :
    parseTimeToMinutes "22:00" = some 1320 ∧
    parseTimeToMinutes "07:00" = some 420 ∧ (420 : Nat) < 1320 ∧
    IsInQuietHours ⟨true, false, "", some ⟨"22:00", "07:00"⟩, [], []⟩ 1350 =
      (decide ((1350 : Nat) ≥ 1320) || decide ((1350 : Nat) < 420)) :=
  ⟨rfl, rfl, by decide,
   (C1_quiet_hours_window.2.2.2 ⟨true, false, "", some ⟨"22:00", "07:00"⟩, [], []⟩
     ⟨"22:00", "07:00"⟩ 1350 1320 420 rfl rfl rfl).2.2 (by decide)⟩

/-- C2: cooldown is opt-in — an unset state-file path or a non-positive
cooldown always yields `(false, nil)` with no state change; with a positive
cooldown on fresh state the first call is not throttled (for any current
Unix time at least the cooldown, as all real clock readings are) and an
immediate second call for the same event and cooldown is throttled. -/
theorem C2_cooldown_sequence :
    (∀ fp file so e c now, fp = "" ∨ c ≤ 0 →
      CheckCooldown fp file so e c now = ⟨false, file, none⟩) ∧
    (∀ fp so e c now, fp ≠ "" → 0 < c → c ≤ now →
      (CheckCooldown fp .missing so e c now).inCooldown = false) ∧
    (∀ fp e c now, fp ≠ "" → 0 < c → c ≤ now →
      (CheckCooldown fp (CheckCooldown fp .missing true e c now).file
        true e c now).inCooldown = true) := by
  refine ⟨?_, ?_, ?_⟩
  · intro fp file so e c now h
    simp only [CheckCooldown]
    rw [if_pos h]
  · intro fp so e c now hfp hc hcn
    simp only [CheckCooldown]
    rw [if_neg (by simp [hfp]; omega)]
    simp only [loadState, List.lookup_nil, Option.getD_none, Int.sub_zero]
    rw [if_neg (by omega)]
    cases so <;> rfl
  · intro fp e c now hfp hc hcn
    have h1 : CheckCooldown fp .missing true e c now =
        ⟨false, .valid ⟨[(e, now)]⟩, none⟩ := by
      simp only [CheckCooldown]
      rw [if_neg (by simp [hfp]; omega)]
      simp only [loadState, List.lookup_nil, Option.getD_none, Int.sub_zero]
      rw [if_neg (by omega)]
      rfl
    rw [h1]
    simp only [CheckCooldown]
    rw [if_neg (by simp [hfp]; omega)]
    simp only [loadState, List.lookup_cons_self, Option.getD_some, Int.sub_self]
    rw [if_pos (by omega)]

/-- C2 witness: the hypotheses of `C2_cooldown_sequence` discharged at a
concrete path, event, 60-second cooldown and Unix time 1000000. -/
theorem C2_cooldown_sequence_witness :
    CheckCooldown "" .missing true "stop" 60 1000000 = ⟨false, .missing, none⟩ ∧
    (CheckCooldown "/s" .missing true "stop" 60 1000000).inCooldown = false ∧
    (CheckCooldown "/s" (CheckCooldown "/s" .missing true "stop" 60 1000000).file
      true "stop" 60 1000000).inCooldown = true :=
  ⟨C2_cooldown_sequence.1 "" .missing true "stop" 60 1000000 (Or.inl rfl),
   C2_cooldown_sequence.2.1 "/s" true "stop" 60 1000000 (by decide) (by decide) (by decide),
   C2_cooldown_sequence.2.2 "/s" "stop" 60 1000000 (by decide) (by decide) (by decide)⟩

/-- C3: with cooldown configured, a throttled call returns `(true, nil)`
and leaves the persisted state untouched; a non-throttled call stamps the
event with the current time and returns `(false, nil)` when persisting
succeeds (the file becoming exactly the updated document, never a partial
one), and returns the not-throttled decision `false` together with a
non-nil error when persisting fails, again leaving the old file in place. -/
theorem C3_cooldown_frame :
    ∀ fp file so e c now, fp ≠ "" → 0 < c →
      (now - ((loadState file).lastTrigger.lookup e).getD 0 < c →
        CheckCooldown fp file so e c now = ⟨true, file, none⟩) ∧
      (¬ now - ((loadState file).lastTrigger.lookup e).getD 0 < c →
        (so = true →
          CheckCooldown fp file so e c now =
            ⟨false, .valid ⟨upsert (loadState file).lastTrigger e now⟩, none⟩) ∧
        (so = false →
          CheckCooldown fp file so e c now =
            ⟨false, file, some "failed to save state"⟩)) := by
  intro fp file so e c now hfp hc
  constructor
  · intro hlt
    simp only [CheckCooldown]
    rw [if_neg (by simp [hfp]; omega)]
    rw [if_pos hlt]
  · intro hge
    constructor
    · intro hso
      subst hso
      simp only [CheckCooldown]
      rw [if_neg (by simp [hfp]; omega)]
      rw [if_neg hge]
      rfl
    · intro hso
      subst hso
      simp only [CheckCooldown]
      rw [if_neg (by simp [hfp]; omega)]
      rw [if_neg hge]
      rfl

/-- C3 witness: the hypotheses of `C3_cooldown_frame` discharged on a
concrete populated state file, once inside and once outside the window. -/
theorem C3_cooldown_frame_witness :
    CheckCooldown "/s" (.valid ⟨[("stop", 999990)]⟩) true "stop" 60 1000000 =
      ⟨true, .valid ⟨[("stop", 999990)]⟩, none⟩ ∧
    CheckCooldown "/s" (.valid ⟨[("stop", 5)]⟩) true "stop" 60 1000000 =
      ⟨false, .valid ⟨[("stop", 1000000)]⟩, none⟩ ∧
    CheckCooldown "/s" (.valid ⟨[("stop", 5)]⟩) false "stop" 60 1000000 =
      ⟨false, .valid ⟨[("stop", 5)]⟩, some "failed to save state"⟩ :=
  ⟨(C3_cooldown_frame "/s" (.valid ⟨[("stop", 999990)]⟩) true "stop" 60 1000000
      (by decide) (by decide)).1 (by decide),
   (C3_cooldown_frame "/s" (.valid ⟨[("stop", 5)]⟩) true "stop" 60 1000000
      (by decide) (by decide)).2 (by decide) |>.1 rfl,
   (C3_cooldown_frame "/s" (.valid ⟨[("stop", 5)]⟩) false "stop" 60 1000000
      (by decide) (by decide)).2 (by decide) |>.2 rfl⟩

/-- C4: `GetEventConfig` is the pure three-layer overlay — profile override
onto base override onto built-in default (with the empty override as the
neutral element); with no applicable profile override it is exactly the
base entry merged onto the defaults (or the defaults when there is no base
entry); and the overlay is idempotent, so a second application changes
nothing. -/
theorem C4_overlay_layering :
    (∀ c e, GetEventConfig c e =
      mergeEvent (mergeEvent (defaultEvent e) ((c.events.lookup e).getD {}))
        ((profileOverride c e).getD {})) ∧
    (∀ c e base, profileOverride c e = none → c.events.lookup e = some base →
      GetEventConfig c e = mergeEvent (defaultEvent e) base) ∧
    (∀ c e, profileOverride c e = none → c.events.lookup e = none →
      GetEventConfig c e = defaultEvent e) ∧
    (∀ ev, mergeEvent ev ev = ev) := by
  have hmain : ∀ c e, GetEventConfig c e =
      mergeEvent (mergeEvent (defaultEvent e) ((c.events.lookup e).getD {}))
        ((profileOverride c e).getD {}) := by
    intro c e
    simp only [GetEventConfig, profileOverride]
    by_cases hap : c.activeProfile ≠ "" ∧ c.activeProfile ≠ "default"
    · rw [if_pos hap, if_pos hap]
      cases hpl : c.profiles.lookup c.activeProfile with
      | none =>
        cases hbl : c.events.lookup e <;>
          simp [Option.bind, mergeEvent_zeroEvent]
      | some pr =>
        cases hel : pr.events.lookup e <;> cases hbl : c.events.lookup e <;>
          simp [Option.bind, hel, mergeEvent_zeroEvent]
    · rw [if_neg hap, if_neg hap]
      cases hbl : c.events.lookup e <;> simp [mergeEvent_zeroEvent]
  refine ⟨hmain, ?_, ?_, ?_⟩
  · intro c e base hpo hbl
    rw [hmain c e, hpo, hbl]
    simp [mergeEvent_zeroEvent]
  · intro c e hpo hbl
    rw [hmain c e, hpo, hbl]
    simp [mergeEvent_zeroEvent]
  · intro ev
    rcases ev with ⟨en, s, v, cd⟩
    cases en <;> cases v <;> cases cd <;> simp [mergeEvent]

/-- C4 witness: the hypotheses of `C4_overlay_layering` discharged on the
default configuration at event "stop", which has a base entry and no
profile override. -/
theorem C4_overlay_layering_witness :
    profileOverride Default "stop" = none ∧
    Default.events.lookup "stop" =
      some { enabled := some true, sound := "bundled:stop",
             volume := some ratHalf, cooldown := some 0 } ∧
    GetEventConfig Default "stop" =
      mergeEvent (defaultEvent "stop")
        { enabled := some true, sound := "bundled:stop",
          volume := some ratHalf, cooldown := some 0 } :=
  ⟨by decide, by decide,
   C4_overlay_layering.2.1 Default "stop"
     { enabled := some true, sound := "bundled:stop",
       volume := some ratHalf, cooldown := some 0 } (by decide) (by decide)⟩

/-- C10: in the overlay, an empty `sound` in the more specific layer never
replaces the lower layer's sound (the all-empty override is a neutral
element, so an explicitly-empty sound is indistinguishable from an absent
one), while for `enabled`, `volume` and `cooldown` any non-null value —
including the zero values `false` and `0` — does override. -/
theorem C10_empty_sound_is_inherit :
    (∀ dst src, src.sound = "" → (mergeEvent dst src).sound = dst.sound) ∧
    (∀ dst, mergeEvent dst {} = dst) ∧
    (∀ dst, mergeEvent dst
        { enabled := some false, sound := "", volume := some 0, cooldown := some 0 } =
      { dst with enabled := some false, volume := some 0, cooldown := some 0 }) ∧
    (∀ dst src, mergeEvent dst { src with sound := "" } =
      { mergeEvent dst src with sound := dst.sound }) := by
  refine ⟨?_, fun dst => mergeEvent_zeroEvent dst, fun dst => rfl, fun dst src => rfl⟩
  intro dst src h
  simp [mergeEvent, h]

/-- C10 witness: the hypothesis of `C10_empty_sound_is_inherit` discharged
on a concrete pair of events whose source has an empty sound. -/
theorem C10_empty_sound_is_inherit_witness :
    (mergeEvent { sound := "bundled:stop" }
      { enabled := some false, sound := "" }).sound = "bundled:stop" :=
  C10_empty_sound_is_inherit.1 { sound := "bundled:stop" }
    { enabled := some false, sound := "" } rfl

/-- C7 counterexample: `badQuietConfig` satisfies every invariant the claim
lists (valid event names, in-range volumes and cooldowns, existing active
profile), yet `Validate` rejects it, because `Validate` also enforces the
"HH:MM" format of quiet-hours bounds, which the claim omits. -/
theorem C7_validate_counterexample :
    specValidInvariants badQuietConfig ∧ Validate badQuietConfig ≠ none :=
  ⟨by unfold specValidInvariants; exact ⟨by decide, by decide, by decide⟩, by decide⟩

/-- C7 amended: `Validate` returns an error iff the configuration violates
one of the claimed invariants (event-name whitelist over base and profile
maps, volume in [0, 1], cooldown ≥ 0, existing active profile) **or** has a
non-empty quiet-hours bound that is not well-formed "HH:MM". -/
theorem C7_validate_iff (c : Config) :
    Validate c = none ↔ (specValidInvariants c ∧ quietHoursFormatOK c = true) := by
  rw [Validate_none_iff]
  tauto

/-- C7 witness: `C7_validate_iff` instantiated at the default
configuration, both sides holding. -/
theorem C7_validate_iff_witness :
    (Validate Default = none ↔
      (specValidInvariants Default ∧ quietHoursFormatOK Default = true)) ∧
    Validate Default = none :=
  ⟨C7_validate_iff Default, by decide⟩

/-- C6 counterexample: the default document round-trips to exactly the
default configuration, but the effective volume of "permission_prompt" is
0.7, not the 0.5 that the claim asserts for every valid event name. -/
theorem C6_roundtrip_counterexample :
    Load (some ensureConfigContent) = .ok Default ∧
    (GetEventConfig Default "permission_prompt").volume = some ratSevenTenths ∧
    ratSevenTenths ≠ ratHalf := by
  exact ⟨by decide, by decide, by decide⟩

/-- C6 amended: writing the default configuration and loading it back
yields exactly the default configuration, which validates successfully, and
the effective setting of every valid event equals its compiled-in default:
enabled, `bundled:<event>` sound and zero cooldown throughout, with volume
0.5 for stop, idle_prompt and subagent and 0.7 for permission_prompt. -/
theorem C6_roundtrip_defaults :
    Load (some ensureConfigContent) = .ok Default ∧
    Validate Default = none ∧
    GetEventConfig Default "stop" =
      { enabled := some true, sound := "bundled:stop",
        volume := some ratHalf, cooldown := some 0 } ∧
    GetEventConfig Default "permission_prompt" =
      { enabled := some true, sound := "bundled:permission_prompt",
        volume := some ratSevenTenths, cooldown := some 0 } ∧
    GetEventConfig Default "idle_prompt" =
      { enabled := some true, sound := "bundled:idle_prompt",
        volume := some ratHalf, cooldown := some 0 } ∧
    GetEventConfig Default "subagent" =
      { enabled := some true, sound := "bundled:subagent",
        volume := some ratHalf, cooldown := some 0 } := by
  exact ⟨by decide, by decide, by decide, by decide, by decide, by decide⟩

/-- C5: sound-path resolution is safe for every input string — a successful
resolution implies the spec had no `..` segment (so every spec with one is
rejected); every `custom:` spec and every bare spec that is not absolute is
rejected; every `bundled:` name not matching `^[a-z_]+$` is rejected,
including the adversarial `bundled:../../etc/passwd` and
`custom:relative/path.mp3`; and, provided the plugin root and home
directory (trusted environment inputs) are themselves free of `..`
segments, every successfully resolved path is free of parent-directory
traversal segments. -/
theorem C5_path_safety :
    (∀ (p : Player) (fs : FS) (spec ev out : String),
      p.ResolveSoundPath fs spec ev = .ok out → hasDotDotSeg spec = false) ∧
    (∀ (p : Player) (fs : FS) (rest ev : String), isAbs rest = false →
      ∃ e, p.ResolveSoundPath fs ("custom:" ++ rest) ev = .error e) ∧
    (∀ (p : Player) (fs : FS) (spec ev : String), spec ≠ "" →
      hasPre spec "bundled:" = false → hasPre spec "custom:" = false →
      hasPre spec "pack:" = false → isAbs spec = false →
      ∃ e, p.ResolveSoundPath fs spec ev = .error e) ∧
    (∀ (p : Player) (fs : FS) (name ev : String), isLowerUnderscoreName name = false →
      ∃ e, p.ResolveSoundPath fs ("bundled:" ++ name) ev = .error e) ∧
    (∀ (p : Player) (fs : FS) (ev : String),
      (∃ e, p.ResolveSoundPath fs "bundled:../../etc/passwd" ev = .error e) ∧
      (∃ e, p.ResolveSoundPath fs "custom:relative/path.mp3" ev = .error e)) ∧
    (∀ (p : Player) (fs : FS) (spec ev out : String),
      hasDotDotSeg p.pluginRoot = false → hasDotDotSeg p.homeDir = false →
      p.ResolveSoundPath fs spec ev = .ok out → hasDotDotSeg out = false) := by
  refine ⟨?_, ?_, ?_, ?_, ?_, ?_⟩
  · intro p fs spec ev out h
    by_cases hemp : spec = ""
    · subst hemp; decide
    · simp only [Player.ResolveSoundPath, if_neg hemp] at h
      by_cases hb : hasPre spec "bundled:" = true
      · rw [if_pos hb] at h
        exact spec_no_dotdot_of_bundled spec hb (resolveBundledSound_ok _ _ _ _ h).1
      · rw [if_neg hb] at h
        by_cases hcu : hasPre spec "custom:" = true
        · rw [if_pos hcu] at h
          obtain ⟨_, _, hcnt⟩ := resolveCustomSound_ok _ _ _ _ h
          rw [hasPre_decompose spec "custom:" hcu]
          exact hasDotDotSeg_append_false "custom:" _ (by decide) (by decide) hcnt
        · rw [if_neg hcu] at h
          by_cases hpk : hasPre spec "pack:" = true
          · rw [if_pos hpk] at h
            obtain ⟨packID, soundFile, hsp, hpid, hdd, hsl, _, _⟩ :=
              resolvePackSound_ok _ _ _ _ h
            obtain ⟨hrest, _⟩ := splitN2_eq_some _ _ _ hsp
            rw [hasPre_decompose spec "pack:" hpk]
            apply hasDotDotSeg_no_slash
            · rw [String.data_append, hrest]
              intro hm
              rcases List.mem_append.mp hm with hm | hm
              · revert hm; decide
              · rcases List.mem_append.mp hm with hm | hm
                · exact isLowerUnderscoreName_not_mem _ hpid '/' (by decide) hm
                · rcases List.mem_cons.mp hm with heq | hm2
                  · exact absurd heq (by decide)
                  · exact not_mem_of_containsL_single '/' _ hsl hm2
            · rw [String.data_append]
              intro heq
              have hlen := congrArg List.length heq
              rw [List.length_append,
                show (("pack:" : String).data).length = 5 from rfl,
                show (['.', '.'] : List Char).length = 2 from rfl] at hlen
              omega
          · rw [if_neg hpk] at h
            obtain ⟨_, _, hcnt⟩ := resolveCustomSound_ok _ _ _ _ h
            exact hasDotDotSeg_of_not_contains spec hcnt
  · intro p fs rest ev habs
    refine ⟨"custom sound must be absolute path: " ++ rest, ?_⟩
    show p.resolveCustomSound fs rest = _
    simp only [Player.resolveCustomSound]
    rw [if_pos (by simp [habs])]
  · intro p fs spec ev hemp hb hcu hpk habs
    refine ⟨"custom sound must be absolute path: " ++ spec, ?_⟩
    simp only [Player.ResolveSoundPath, if_neg hemp]
    rw [if_neg (by simp [hb]), if_neg (by simp [hcu]), if_neg (by simp [hpk])]
    simp only [Player.resolveCustomSound]
    rw [if_pos (by simp [habs])]
  · intro p fs name ev hname
    refine ⟨"invalid bundled sound name: " ++ name, ?_⟩
    show p.resolveBundledSound fs name = _
    simp only [Player.resolveBundledSound]
    rw [if_pos (by simp [hname])]
  · intro p fs ev
    exact ⟨⟨_, rfl⟩, ⟨_, rfl⟩⟩
  · intro p fs spec ev out hpr hhd h
    by_cases hemp : spec = ""
    · subst hemp
      simp only [Player.ResolveSoundPath] at h
      have h2 : p.resolveBundledSound fs ev = .ok out := h
      obtain ⟨hname, hout⟩ := resolveBundledSound_ok _ _ _ _ h2
      rw [hout]
      apply joinPath_no_dotdot
      intro s hs
      simp only [List.mem_cons, List.mem_singleton] at hs
      rcases hs with rfl | rfl | rfl | hs
      · exact hpr
      · decide
      · exact hasDotDotSeg_name_aiff ev hname
      · exact absurd hs (List.not_mem_nil s)
    · simp only [Player.ResolveSoundPath, if_neg hemp] at h
      by_cases hb : hasPre spec "bundled:" = true
      · rw [if_pos hb] at h
        obtain ⟨hname, hout⟩ := resolveBundledSound_ok _ _ _ _ h
        rw [hout]
        apply joinPath_no_dotdot
        intro s hs
        simp only [List.mem_cons, List.mem_singleton] at hs
        rcases hs with rfl | rfl | rfl | hs
        · exact hpr
        · decide
        · exact hasDotDotSeg_name_aiff _ hname
        · exact absurd hs (List.not_mem_nil s)
      · rw [if_neg hb] at h
        by_cases hcu : hasPre spec "custom:" = true
        · rw [if_pos hcu] at h
          obtain ⟨hout, _, hcnt⟩ := resolveCustomSound_ok _ _ _ _ h
          rw [hout]
          exact hasDotDotSeg_of_not_contains _ hcnt
        · rw [if_neg hcu] at h
          by_cases hpk : hasPre spec "pack:" = true
          · rw [if_pos hpk] at h
            obtain ⟨packID, soundFile, _, hpid, hdd, hsl, _, hout⟩ :=
              resolvePackSound_ok _ _ _ _ h
            rw [hout]
            apply joinPath_no_dotdot
            intro s hs
            simp only [List.mem_cons, List.mem_singleton] at hs
            rcases hs with rfl | rfl | rfl | rfl | rfl | rfl | hs
            · exact hhd
            · decide
            · decide
            · decide
            · exact hasDotDotSeg_of_lowerUnderscore _ hpid
            · exact hasDotDotSeg_of_not_contains _ hdd
            · exact absurd hs (List.not_mem_nil s)
          · rw [if_neg hpk] at h
            obtain ⟨hout, _, hcnt⟩ := resolveCustomSound_ok _ _ _ _ h
            rw [hout]
            exact hasDotDotSeg_of_not_contains _ hcnt

/-- C5 witness: the hypotheses of `C5_path_safety` discharged on concrete
inputs — a resolvable custom spec, a relative custom spec, a bare relative
spec, a traversal-laden bundled name, and the adversarial spec pair. -/
theorem C5_path_safety_witness :
    hasDotDotSeg "custom:/ok.mp3" = false ∧
    (∃ e, Player.ResolveSoundPath ⟨Platform.macos, "/plugin", ""⟩ fsAll
      ("custom:" ++ "relative/path.mp3") "stop" = .error e) ∧
    (∃ e, Player.ResolveSoundPath ⟨Platform.macos, "/plugin", ""⟩ fsAll
      "relative.mp3" "stop" = .error e) ∧
    (∃ e, Player.ResolveSoundPath ⟨Platform.macos, "/plugin", ""⟩ fsAll
      ("bundled:" ++ "../x") "stop" = .error e) ∧
    (∃ e, Player.ResolveSoundPath ⟨Platform.macos, "/plugin", ""⟩ fsAll
      "bundled:../../etc/passwd" "stop" = .error e) ∧
    hasDotDotSeg "/ok.mp3" = false :=
  ⟨C5_path_safety.1 ⟨Platform.macos, "/plugin", ""⟩ fsAll "custom:/ok.mp3" "stop"
     "/ok.mp3" (by decide),
   C5_path_safety.2.1 ⟨Platform.macos, "/plugin", ""⟩ fsAll "relative/path.mp3" "stop"
     (by decide),
   C5_path_safety.2.2.1 ⟨Platform.macos, "/plugin", ""⟩ fsAll "relative.mp3" "stop"
     (by decide) (by decide) (by decide) (by decide) (by decide),
   C5_path_safety.2.2.2.1 ⟨Platform.macos, "/plugin", ""⟩ fsAll "../x" "stop" (by decide),
   (C5_path_safety.2.2.2.2.1 ⟨Platform.macos, "/plugin", ""⟩ fsAll "stop").1,
   C5_path_safety.2.2.2.2.2 ⟨Platform.macos, "/plugin", ""⟩ fsAll "custom:/ok.mp3"
     "stop" "/ok.mp3" (by decide) (by decide) (by decide)⟩

/-- C9: `ResolveSoundPath` accepts the undocumented `pack:` scheme — with a
`^[a-z_]+$` pack id, a sound-file name containing neither `..` nor `/`, a
known home directory and an existing target, the spec
`pack:<pack_id>:<sound_file>` resolves to
`<homeDir>/.claude/ccbell/packs/<pack_id>/<sound_file>` even though it is
not an absolute path; violating any of those conditions is an error. -/
theorem C9_pack_scheme :
    (∀ (p : Player) (fs : FS) (packID soundFile ev : String),
      isLowerUnderscoreName packID = true →
      containsStr soundFile ".." = false → containsStr soundFile "/" = false →
      p.homeDir ≠ "" →
      fs.stat (joinPath [p.homeDir, ".claude", "ccbell", "packs", packID, soundFile]) = true →
      p.ResolveSoundPath fs ("pack:" ++ packID ++ ":" ++ soundFile) ev =
        .ok (joinPath [p.homeDir, ".claude", "ccbell", "packs", packID, soundFile])) ∧
    (∀ (p : Player) (fs : FS) (spec packID soundFile : String),
      splitN2 spec ':' = (packID, some soundFile) →
      isLowerUnderscoreName packID = false →
      ∃ e, p.resolvePackSound fs spec = .error e) ∧
    (∀ (p : Player) (fs : FS) (spec packID soundFile : String),
      splitN2 spec ':' = (packID, some soundFile) →
      (containsStr soundFile ".." = true ∨ containsStr soundFile "/" = true) →
      isLowerUnderscoreName packID = true →
      ∃ e, p.resolvePackSound fs spec = .error e) ∧
    (∀ (p : Player) (fs : FS) (spec packID soundFile : String),
      splitN2 spec ':' = (packID, some soundFile) →
      isLowerUnderscoreName packID = true →
      containsStr soundFile ".." = false → containsStr soundFile "/" = false →
      p.homeDir = "" →
      ∃ e, p.resolvePackSound fs spec = .error e) ∧
    (∀ r : String, isAbs ("pack:" ++ r) = false) := by
  refine ⟨?_, ?_, ?_, ?_, ?_⟩
  · intro p fs packID soundFile ev hpid hdd hsl hhome hstat
    show p.resolvePackSound fs (packID ++ ":" ++ soundFile) = _
    exact resolvePackSound_success p fs packID soundFile hpid hdd hsl hhome hstat
  · intro p fs spec packID soundFile hsp hpid
    refine ⟨"invalid pack ID: " ++ packID, ?_⟩
    simp only [Player.resolvePackSound, hsp]
    rw [if_pos (by simp [hpid])]
  · intro p fs spec packID soundFile hsp hbad hpid
    refine ⟨"invalid sound file name: " ++ soundFile, ?_⟩
    simp only [Player.resolvePackSound, hsp]
    rw [if_neg (by simp [hpid]), if_pos ?_]
    rcases hbad with hbad | hbad <;> simp [hbad]
  · intro p fs spec packID soundFile hsp hpid hdd hsl hhome
    refine ⟨"home directory not set for pack sounds", ?_⟩
    simp only [Player.resolvePackSound, hsp]
    rw [if_neg (by simp [hpid]), if_neg (by simp [hdd, hsl]), if_pos hhome]
  · intro r
    rfl

/-- C9 witness: the hypotheses of `C9_pack_scheme` discharged on a concrete
pack sound under `/home/u`, plus a rejection with a bad pack id. -/
theorem C9_pack_scheme_witness :
    Player.ResolveSoundPath ⟨Platform.macos, "/plugin", "/home/u"⟩ packFS
      ("pack:" ++ "alerts" ++ ":" ++ "ding.wav") "stop" =
      .ok (joinPath ["/home/u", ".claude", "ccbell", "packs", "alerts", "ding.wav"]) ∧
    (∃ e, Player.resolvePackSound ⟨Platform.macos, "/plugin", "/home/u"⟩ packFS
      "Bad:ding.wav" = .error e) ∧
    isAbs ("pack:" ++ "alerts:ding.wav") = false :=
  ⟨C9_pack_scheme.1 ⟨Platform.macos, "/plugin", "/home/u"⟩ packFS "alerts" "ding.wav"
     "stop" (by decide) (by decide) (by decide) (by decide) (by decide),
   C9_pack_scheme.2.1 ⟨Platform.macos, "/plugin", "/home/u"⟩ packFS "Bad:ding.wav"
     "Bad" "ding.wav" (by decide) (by decide),
   C9_pack_scheme.2.2.2.2 "alerts:ding.wav"⟩

/-- C8: whenever the pipeline is suppressed — plugin globally disabled,
event disabled, inside quiet hours, or throttled by cooldown — `run`
returns nil (so `main` exits with code 0), sound resolution is never
reached and no child process is spawned; in particular the concrete
scenario with config `{"enabled": false}` and event "stop" stops before
resolution with exit code 0. -/
theorem C8_suppressed_exit_zero :
    (∀ env : RunEnv,
      ValidateEventType (env.args.head?.getD "stop") = none →
      ((loadedConfig env.configFile).enabled = false ∨
       (GetEventConfig (loadedConfig env.configFile)
          (env.args.head?.getD "stop")).enabled.getD true = false ∨
       IsInQuietHours (loadedConfig env.configFile) env.currentMins = true ∨
       ((CheckCooldown (NewManagerPath env.homeDir) env.stateFile env.saveOk
           (env.args.head?.getD "stop")
           ((GetEventConfig (loadedConfig env.configFile)
              (env.args.head?.getD "stop")).cooldown.getD 0)
           env.nowUnix).err = none ∧
        (CheckCooldown (NewManagerPath env.homeDir) env.stateFile env.saveOk
           (env.args.head?.getD "stop")
           ((GetEventConfig (loadedConfig env.configFile)
              (env.args.head?.getD "stop")).cooldown.getD 0)
           env.nowUnix).inCooldown = true)) →
      runModel env = ⟨none, false, false⟩ ∧ exitCode (runModel env) = 0) ∧
    (runModel envDisabled = ⟨none, false, false⟩ ∧
     exitCode (runModel envDisabled) = 0) := by
  constructor
  · intro env hval hsup
    have hv1 : ¬(env.args.head?.getD "stop" = "--version" ∨ env.args.head?.getD "stop" = "-v") := by
      rintro (h | h) <;> rw [h] at hval <;> exact absurd hval (by decide)
    have hv2 : ¬(env.args.head?.getD "stop" = "--help" ∨ env.args.head?.getD "stop" = "-h") := by
      rintro (h | h) <;> rw [h] at hval <;> exact absurd hval (by decide)
    have hrun : runModel env = ⟨none, false, false⟩ := by
      simp only [runModel, if_neg hv1, if_neg hv2, hval]
      rcases hsup with hdis | hdis | hdis | hdis
      · rw [if_pos (by simp [hdis])]
      · by_cases hen : (loadedConfig env.configFile).enabled = true
        · rw [if_neg (by simp [hen]), if_pos (by simp [hdis])]
        · rw [if_pos (by simp [hen])]
      · by_cases hen : (loadedConfig env.configFile).enabled = true
        · by_cases hev : (GetEventConfig (loadedConfig env.configFile)
              (env.args.head?.getD "stop")).enabled.getD true = true
          · rw [if_neg (by simp [hen]), if_neg (by simp [hev]), if_pos hdis]
          · rw [if_neg (by simp [hen]), if_pos (by simp [hev])]
        · rw [if_pos (by simp [hen])]
      · by_cases hen : (loadedConfig env.configFile).enabled = true
        · by_cases hev : (GetEventConfig (loadedConfig env.configFile)
              (env.args.head?.getD "stop")).enabled.getD true = true
          · by_cases hq : IsInQuietHours (loadedConfig env.configFile) env.currentMins = true
            · rw [if_neg (by simp [hen]), if_neg (by simp [hev]), if_pos hq]
            · rw [if_neg (by simp [hen]), if_neg (by simp [hev]),
                if_neg (by simp [hq]), if_pos hdis]
          · rw [if_neg (by simp [hen]), if_pos (by simp [hev])]
        · rw [if_pos (by simp [hen])]
    exact ⟨hrun, by rw [hrun]; rfl⟩
  · exact ⟨by decide, by decide⟩

/-- C8 witness: the hypotheses of `C8_suppressed_exit_zero` discharged on
the concrete disabled-plugin environment. -/
theorem C8_suppressed_exit_zero_witness :
    ValidateEventType "stop" = none ∧
    (loadedConfig envDisabled.configFile).enabled = false ∧
    runModel envDisabled = ⟨none, false, false⟩ ∧ exitCode (runModel envDisabled) = 0 :=
  ⟨by decide, by decide,
   (C8_suppressed_exit_zero.1 envDisabled (by decide) (Or.inl (by decide))).1,
   (C8_suppressed_exit_zero.1 envDisabled (by decide) (Or.inl (by decide))).2⟩

end Ccbell
